import Mathlib

/-!
# The statistics collector of `power-adaptation-distance.cc`

A shallow embedding of the class `NodeStatistics` and of the objects of the
simulator it talks to, of the sweep that `main` sets up, of the traffic
generator of `wifi-simple-interference.cc` and of the sweep of `trabalho.cc`,
followed by the properties of the handlers, of the position sweep and of the
two other programs. The definitions of the three programs come first, each in
its namespace; the theorems follow.

Conventions of the embedding.

* A C++ `double` is an element of an ordered field `F` and its arithmetic is
  exact: rounding and overflow to infinity are left out.  The one operation
  with a result that is no number, a division by zero, returns `none`
  (`ddiv`).  Concrete runs take `F := ℚ`; where the library function `pow` is
  evaluated, `F := ℝ`.
* A C++ `int` is an `Int`, and an `int` product is reduced to 32 bits in two's
  complement (`wrapInt32`).  A `uint32_t` is a `Nat` reduced modulo `2 ^ 32`.
* A `std::map` is the function from keys to the values stored, `none` where
  the key is absent.
* A method of the class takes the object as `self` and returns the object
  after the call; a method that can reach `NS_ASSERT (false)` returns `none`
  there: the assertion ends the run.
* A loop whose end is not plain from its form takes a number of rounds it may
  run, `fuel`; the theorems give a number that is enough.
-/

namespace PowerAdaptationDistance

/-! ## Machine arithmetic -/

/-- Value of an `int` result: the mathematical value reduced to 32 bits, two's complement. -/
def wrapInt32 (n : Int) : Int := (n + 2 ^ 31) % 2 ^ 32 - 2 ^ 31

/-- Value of a `uint32_t` result: the mathematical value modulo `2 ^ 32`. -/
def wrapUInt32 (n : Nat) : Nat := n % 2 ^ 32

/-- Division of doubles, `x / y`.  With a zero divisor the machine result is an
infinity or a NaN, which is no number: `none`. -/
def ddiv {F : Type} [LinearOrderedField F] (x y : F) : Option F :=
  if y = 0 then none else some (x / y)

/-! ## Objects of the simulator -/

/-- A 48-bit hardware address, as a number. -/
abbrev Mac48Address := Nat

/-- The address `ff:ff:ff:ff:ff:ff`. -/
def broadcastAddress : Mac48Address := 2 ^ 48 - 1

/-- A `DataRate`: a number of bits per second. -/
abbrev DataRate := Nat

/-- The rate built by the default constructor `DataRate ()`. -/
def defaultDataRate : DataRate := 0

/-- Packet size generated at the access point, in bytes (`packetSize`). -/
def packetSize : Nat := 1420

/-- A `Vector` of the mobility model: three doubles. -/
structure Vector (F : Type) where
  x : F
  y : F
  z : F

/-- A node, reduced to the position its mobility model holds. -/
structure Node (F : Type) where
  mobility : Vector F

/-- The frame types `WifiMacHeader::GetType` can report. Only the comparison with
`WIFI_MAC_DATA` is of consequence here; the types not listed by name are `other`. -/
inductive WifiMacType where
  | WIFI_MAC_CTL_RTS
  | WIFI_MAC_CTL_CTS
  | WIFI_MAC_CTL_ACK
  | WIFI_MAC_MGT_BEACON
  | WIFI_MAC_MGT_ASSOCIATION_REQUEST
  | WIFI_MAC_MGT_ASSOCIATION_RESPONSE
  | WIFI_MAC_DATA
  | WIFI_MAC_DATA_NULL
  | WIFI_MAC_QOSDATA
  | other (code : Nat)
  deriving DecidableEq

/-- A MAC header: its first address and its type. -/
structure WifiMacHeader where
  GetAddr1 : Mac48Address
  GetType : WifiMacType

/-- A packet: the MAC header `PeekHeader` reads and the size `GetSize` reports. -/
structure Packet where
  PeekHeader : WifiMacHeader
  GetSize : Nat

/-- A `WifiMode`: the data rate it reaches on a channel of the given width. -/
structure WifiMode where
  GetDataRate : Nat → Nat

/-- The preamble types; `SetupPhy` uses the long one. -/
inductive WifiPreamble where
  | WIFI_PREAMBLE_LONG
  | WIFI_PREAMBLE_SHORT
  deriving DecidableEq

/-- A `WifiTxVector`, with the three fields `SetupPhy` sets. -/
structure WifiTxVector where
  mode : WifiMode
  preambleType : WifiPreamble
  channelWidth : Nat

/-- The physical layer, as the answers it gives to the queries of the class.
`CalculateTxDuration size txVector frequency` is a duration in seconds. -/
structure WifiPhy (F : Type) where
  GetNModes : Nat
  GetMode : Nat → WifiMode
  GetChannelWidth : Nat
  GetFrequency : Nat
  GetTxPowerEnd : F
  CalculateTxDuration : Nat → WifiTxVector → Nat → F

/-- A `Gnuplot2dDataset`, reduced to the points added to it, oldest first. The
ordinate is the result of a division, hence an `Option`. -/
abbrev Gnuplot2dDataset (F : Type) := List (F × Option F)

/-- Effect of `Gnuplot2dDataset::Add (x, y)`: one more point at the end. -/
def Gnuplot2dDataset.Add {F : Type} (d : Gnuplot2dDataset F) (x : F) (y : Option F) :
    Gnuplot2dDataset F :=
  d ++ [(x, y)]

/-- The type `TxTime`: a vector of pairs (duration in seconds, rate). -/
abbrev TxTime (F : Type) := List (F × DataRate)

/-- The data members of `NodeStatistics` (`myPhy` is stored and never read again). -/
structure NodeStatistics (F : Type) where
  currentPower : Mac48Address → Option F
  currentRate : Mac48Address → Option DataRate
  m_bytesTotal : Nat
  totalEnergy : F
  totalTime : F
  myPhy : WifiPhy F
  timeTable : TxTime F
  m_output : Gnuplot2dDataset F
  m_output_power : Gnuplot2dDataset F

/-- A call handed to `Simulator::Schedule`: the delay in seconds and the two
arguments `AdvancePosition` is to be called with. -/
structure ScheduledCall where
  delay : Int
  stepsSize : Int
  stepsTime : Int
  deriving DecidableEq

/-- What one call of `AdvancePosition` leaves behind: the object, the node and
the call it scheduled. -/
structure Tick (F : Type) where
  stats : NodeStatistics F
  node : Node F
  next : ScheduledCall

/-! ## `std::map` -/

/-- Reading `m[k]`: the value stored, and the map afterwards. An absent key is
inserted with the value-initialised `dflt`. -/
def mapIndex {V : Type} (m : Mac48Address → Option V) (k : Mac48Address) (dflt : V) :
    V × (Mac48Address → Option V) :=
  match m k with
  | some v => (v, m)
  | none => (dflt, Function.update m k (some dflt))

/-- Assignment `m[k] = v`. -/
def mapAssign {V : Type} (m : Mac48Address → Option V) (k : Mac48Address) (v : V) :
    Mac48Address → Option V :=
  Function.update m k (some v)

/-! ## The methods of `NodeStatistics` -/

section Methods

variable {F : Type} [LinearOrderedField F]

/-- The loop of `SetupPhy` from index `i` on, `fuel` being the number of rounds left. -/
def SetupPhyLoop (phy : WifiPhy F) : Nat → Nat → TxTime F → TxTime F
  | 0, _, timeTable => timeTable
  | fuel + 1, i, timeTable =>
    let mode := phy.GetMode i
    let txVector : WifiTxVector :=
      { mode := mode
        preambleType := WifiPreamble.WIFI_PREAMBLE_LONG
        channelWidth := phy.GetChannelWidth }
    let dataRate : DataRate := mode.GetDataRate phy.GetChannelWidth
    let time := phy.CalculateTxDuration packetSize txVector phy.GetFrequency
    SetupPhyLoop phy fuel (i + 1) (timeTable ++ [(time, dataRate)])

/-- Method `SetupPhy`: one entry pushed on `timeTable` for each mode `0 .. nModes - 1`. -/
def SetupPhy (self : NodeStatistics F) (phy : WifiPhy F) : NodeStatistics F :=
  let nModes := phy.GetNModes
  { self with timeTable := SetupPhyLoop phy nModes 0 self.timeTable }

/-- Modelled from the spec: the macro `NS_ASSERT` of the simulator, applied to
`false`. Its definition is not among the sources; by the spec a failed assertion
is fatal and aborts the run, so that the call returns nothing and the statement
`return Seconds (0)` after it is not reached. -/
abbrev assertFalse {α : Type} : Option α := none

/-- The loop of `GetCalcTxTime` over the table; `none` when the end is reached,
where the method runs into `NS_ASSERT (false)`. -/
def GetCalcTxTimeLoop (rate : DataRate) : TxTime F → Option F
  | [] => assertFalse
  | i :: rest => if rate = i.2 then some i.1 else GetCalcTxTimeLoop rate rest

/-- Method `GetCalcTxTime`. -/
def GetCalcTxTime (self : NodeStatistics F) (rate : DataRate) : Option F :=
  GetCalcTxTimeLoop rate self.timeTable

/-- The members as the constructor body finds them: empty maps, an empty table
and empty datasets. The three counters, which the body sets to 0 at its end and
does not read before, and `myPhy`, which it sets at its start, are written with
these values from the beginning. -/
def defaultMembers (phy : WifiPhy F) : NodeStatistics F :=
  { currentPower := fun _ => none
    currentRate := fun _ => none
    m_bytesTotal := 0
    totalEnergy := 0
    totalTime := 0
    myPhy := phy
    timeTable := []
    m_output := []
    m_output_power := [] }

/-- The loop of the constructor over the station devices, given by their addresses. -/
def seedStations (power : F) (dataRate : DataRate) :
    List Mac48Address → NodeStatistics F → NodeStatistics F
  | [], self => self
  | addr :: rest, self =>
    let self := { self with currentPower := mapAssign self.currentPower addr power }
    let self := { self with currentRate := mapAssign self.currentRate addr dataRate }
    seedStations power dataRate rest self

/-- The constructor `NodeStatistics::NodeStatistics (aps, stas)`: `phy` is the
physical layer of the device `aps.Get (0)`, `stas` the addresses of the station
devices in container order. -/
def NodeStatistics.ctor (phy : WifiPhy F) (stas : List Mac48Address) : NodeStatistics F :=
  let self := defaultMembers phy
  let self := SetupPhy self phy
  let dataRate : DataRate := (phy.GetMode 0).GetDataRate phy.GetChannelWidth
  let power := phy.GetTxPowerEnd
  let self := seedStations power dataRate stas self
  let self := { self with currentRate := mapAssign self.currentRate broadcastAddress dataRate }
  { self with totalEnergy := 0, totalTime := 0, m_bytesTotal := 0 }

/-- Method `PhyCallback`. `pow` is the library function of that name. Each of
the two statements of the branch reads the maps with `operator[]` and looks the
rate up in the table. -/
def PhyCallback (pow : F → F → F) (self : NodeStatistics F) (packet : Packet) :
    Option (NodeStatistics F) :=
  let head := packet.PeekHeader
  let dest := head.GetAddr1
  if head.GetType = WifiMacType.WIFI_MAC_DATA then do
    let (power, currentPower) := mapIndex self.currentPower dest 0
    let self := { self with currentPower := currentPower }
    let (rate, currentRate) := mapIndex self.currentRate dest defaultDataRate
    let self := { self with currentRate := currentRate }
    let airtime ← GetCalcTxTime self rate
    let self := { self with totalEnergy := self.totalEnergy + pow 10 (power / 10) * airtime }
    let (rate, currentRate) := mapIndex self.currentRate dest defaultDataRate
    let self := { self with currentRate := currentRate }
    let airtime ← GetCalcTxTime self rate
    pure { self with totalTime := self.totalTime + airtime }
  else
    some self

/-- Method `PowerCallback`. -/
def PowerCallback (self : NodeStatistics F) (_oldPower newPower : F) (dest : Mac48Address) :
    NodeStatistics F :=
  { self with currentPower := mapAssign self.currentPower dest newPower }

/-- Method `RateCallback`. -/
def RateCallback (self : NodeStatistics F) (_oldRate newRate : DataRate) (dest : Mac48Address) :
    NodeStatistics F :=
  { self with currentRate := mapAssign self.currentRate dest newRate }

/-- Method `RxCallback`; `m_bytesTotal` is a `uint32_t`. -/
def RxCallback (self : NodeStatistics F) (packet : Packet) : NodeStatistics F :=
  { self with m_bytesTotal := wrapUInt32 (self.m_bytesTotal + packet.GetSize) }

/-- Method `SetPosition`. -/
def SetPosition (node : Node F) (position : Vector F) : Node F :=
  { node with mobility := position }

/-- Method `GetPosition`. -/
def GetPosition (node : Node F) : Vector F :=
  node.mobility

/-- Method `AdvancePosition (node, stepsSize, stepsTime)`. The product
`1000000 * stepsTime` is an `int` product; `m_bytesTotal * 8.0`, both quotients
and `pos.x += stepsSize` are computed on doubles. -/
def AdvancePosition (self : NodeStatistics F) (node : Node F) (stepsSize stepsTime : Int) :
    Tick F :=
  let pos := GetPosition node
  let mbs := ddiv ((self.m_bytesTotal : F) * 8) ((wrapInt32 (1000000 * stepsTime) : Int) : F)
  let self := { self with m_bytesTotal := 0 }
  let atp := ddiv self.totalEnergy ((stepsTime : Int) : F)
  let self := { self with totalEnergy := 0 }
  let self := { self with totalTime := 0 }
  let self := { self with m_output_power := self.m_output_power.Add pos.x atp }
  let self := { self with m_output := self.m_output.Add pos.x mbs }
  let pos := { pos with x := pos.x + ((stepsSize : Int) : F) }
  let node := SetPosition node pos
  { stats := self
    node := node
    next := { delay := stepsTime, stepsSize := stepsSize, stepsTime := stepsTime } }

/-- The sweep: `n` calls of `AdvancePosition` in a row, each with the arguments
of the call the one before scheduled. -/
def sweep : Nat → NodeStatistics F → Node F → Int → Int → NodeStatistics F × Node F
  | 0, self, node, _, _ => (self, node)
  | n + 1, self, node, stepsSize, stepsTime =>
    let t := AdvancePosition self node stepsSize stepsTime
    sweep n t.stats t.node t.next.stepsSize t.next.stepsTime

end Methods

/-! ## `main`: the set-up of the sweep and the run -/

/-- Conversion of a double to an integer type: the fractional part is dropped. -/
def truncate (x : ℚ) : Int := if 0 ≤ x then ⌊x⌋ else ⌈x⌉

/-- Conversion of a double to `uint32_t`: the fractional part is dropped. For a
value outside the range of the type the language defines no result; the value
taken here is the nearest one of the type, which is what g++ stores for a
constant initialiser (0 for a negative one). -/
def toUInt32 (x : ℚ) : Nat :=
  if truncate x < 0 then 0
  else if truncate x < 2 ^ 32 then (truncate x).toNat
  else 2 ^ 32 - 1

/-- Conversion of a `uint32_t` to `int`, as at the call of `AdvancePosition`,
whose parameters are `int`. -/
def toInt32 (n : Nat) : Int := wrapInt32 n

/-- The values written in `main` for the sweep: the initialisers of `sta1_x`,
`sta1_y`, `steps`, `stepsSize` and `stepsTime`, as numbers; `main` stores the
first two in an `int` and the last three in a `uint32_t`. -/
structure Settings where
  sta1_x : ℚ
  sta1_y : ℚ
  steps : Nat
  stepsSize : ℚ
  stepsTime : Nat

/-- The initialisers as the source has them. -/
def defaultSettings : Settings :=
  { sta1_x := -14 / 10, sta1_y := 3, steps := 1, stepsSize := 1 / 10, stepsTime := 1 }

section Run

variable {F : Type} [LinearOrderedField F]

/-- The run of the simulator, for the events of the sweep. `time` is the time of
the pending call of `AdvancePosition`, `early` tells whether it was inserted
before the stop event, `stop` is the time of the stop event. Events run in the
order of their times and, at equal times, of their insertion; a call that comes
before the stop event is executed and its successor is then the pending call.
The result is the number of calls executed with the object and the node at the
stop; `none` stands for a run that has not reached the stop when `fuel` calls
have been executed.

The events of the traffic act on the object through `PhyCallback`,
`RxCallback`, `PowerCallback` and `RateCallback`, which leave the two series,
the node and the pending call as they are; they are not part of this run. -/
def runSweep : Nat → F → Bool → F → NodeStatistics F → Node F → Int → Int →
    Option (Nat × NodeStatistics F × Node F)
  | 0, _, _, _, _, _, _, _ => none
  | fuel + 1, time, early, stop, self, node, stepsSize, stepsTime =>
    if time < stop ∨ (time = stop ∧ early = true) then
      let t := AdvancePosition self node stepsSize stepsTime
      (runSweep fuel (time + ((t.next.delay : Int) : F)) false stop t.stats t.node
        t.next.stepsSize t.next.stepsTime).map (fun r => (r.1 + 1, r.2))
    else
      some (0, self, node)

/-- The part of `main` that sets the sweep up and runs it: the conversions of the
initialisers, `simuTime`, the station node at `(sta1_x, sta1_y, 0)`, the object
`statistics`, the first call scheduled at `0.5 + stepsTime` seconds and the stop
at `simuTime` seconds. `phy` and `stas` are the physical layer of the access
point and the addresses of the stations. -/
def mainSweep (fuel : Nat) (s : Settings) (phy : WifiPhy F) (stas : List Mac48Address) :
    Option (Nat × NodeStatistics F × Node F) :=
  let sta1_x : Int := wrapInt32 (truncate s.sta1_x)
  let sta1_y : Int := wrapInt32 (truncate s.sta1_y)
  let steps : Nat := wrapUInt32 s.steps
  let stepsSize : Nat := toUInt32 s.stepsSize
  let stepsTime : Nat := wrapUInt32 s.stepsTime
  let simuTime : Nat := wrapUInt32 ((steps + 1) * stepsTime)
  let node : Node F := { mobility := { x := (sta1_x : F), y := (sta1_y : F), z := 0 } }
  let statistics := NodeStatistics.ctor phy stas
  runSweep fuel (1 / 2 + (stepsTime : F)) true (simuTime : F) statistics node
    (toInt32 stepsSize) (toInt32 stepsTime)

end Run

/-! ## Terms used in the statements -/

section Terms

variable {F : Type} [LinearOrderedField F]

/-- Rate of mode `i` on the channel of the physical layer, as `SetupPhy` computes it. -/
def modeRate (phy : WifiPhy F) (i : Nat) : DataRate :=
  (phy.GetMode i).GetDataRate phy.GetChannelWidth

/-- Duration `SetupPhy` computes for mode `i`. -/
def modeDuration (phy : WifiPhy F) (i : Nat) : F :=
  phy.CalculateTxDuration packetSize
    { mode := phy.GetMode i
      preambleType := WifiPreamble.WIFI_PREAMBLE_LONG
      channelWidth := phy.GetChannelWidth }
    phy.GetFrequency

/-- The object `PhyCallback` leaves behind for a data frame whose rate lookups
both give `a`. -/
def afterDataFrame (pow : F → F → F) (self : NodeStatistics F) (dest : Mac48Address) (a : F) :
    NodeStatistics F :=
  { self with
    currentPower := (mapIndex self.currentPower dest 0).2
    currentRate := (mapIndex self.currentRate dest defaultDataRate).2
    totalEnergy := self.totalEnergy + pow 10 ((mapIndex self.currentPower dest 0).1 / 10) * a
    totalTime := self.totalTime + a }

/-- A frame of the given type for the given destination, of `packetSize` bytes. -/
def frameTo (dest : Mac48Address) (type : WifiMacType) : Packet :=
  { PeekHeader := { GetAddr1 := dest, GetType := type }, GetSize := packetSize }

end Terms

/-! ## Sample values for the concrete runs -/

/-- A physical layer with two modes, 6 and 54 Mbit/s, whose frame of `packetSize`
bytes lasts 0.01853 s and 0.00025 s, and with the `TxPowerEnd` that `main` sets. -/
def samplePhy (F : Type) [LinearOrderedField F] : WifiPhy F where
  GetNModes := 2
  GetMode := fun i => { GetDataRate := fun _ => if i = 0 then 6000000 else 54000000 }
  GetChannelWidth := 20
  GetFrequency := 5180
  GetTxPowerEnd := -40
  CalculateTxDuration := fun _ txVector _ =>
    if txVector.mode.GetDataRate txVector.channelWidth = 6000000 then 1853 / 100000 else 1 / 4000

/-- The object built for `samplePhy` and one station, of address 1. -/
def sampleStats (F : Type) [LinearOrderedField F] : NodeStatistics F :=
  NodeStatistics.ctor (samplePhy F) [1]

/-- A station node placed at `(x, 3, 0)`. -/
def sampleNode (F : Type) [LinearOrderedField F] (x : F) : Node F :=
  { mobility := { x := x, y := 3, z := 0 } }

end PowerAdaptationDistance

/-! # The traffic generator of `wifi-simple-interference.cc` -/

namespace WifiSimpleInterference

/-- What `GenerateTraffic` asks of its socket: `Send` of a packet of the given
size, or `Close`. -/
inductive SocketCall where
  | Send (pktSize : Nat)
  | Close
  deriving DecidableEq

/-- A call of `GenerateTraffic` handed to `Simulator::Schedule`: the delay and
the arguments after the socket. -/
structure ScheduledTraffic (F : Type) where
  delay : F
  pktSize : Nat
  pktCount : Nat
  pktInterval : F

section Traffic

variable {F : Type} [LinearOrderedField F]

/-- One call of `GenerateTraffic (socket, pktSize, pktCount, pktInterval)`: the
call it makes on the socket and the call it schedules, if it schedules one. -/
def GenerateTraffic (pktSize pktCount : Nat) (pktInterval : F) :
    SocketCall × Option (ScheduledTraffic F) :=
  if pktCount > 0 then
    (SocketCall.Send pktSize,
      some { delay := pktInterval, pktSize := pktSize, pktCount := pktCount - 1,
             pktInterval := pktInterval })
  else
    (SocketCall.Close, none)

/-- The run of the simulator for the calls that start with `GenerateTraffic` at
time `now`: each scheduled call is executed at its time, until a call schedules
nothing. The result lists the socket calls with their times; `none` stands for a
run that has not ended when `fuel` calls have been executed. -/
def runTraffic : Nat → F → Nat → Nat → F → Option (List (F × SocketCall))
  | 0, _, _, _, _ => none
  | fuel + 1, now, pktSize, pktCount, pktInterval =>
    match GenerateTraffic pktSize pktCount pktInterval with
    | (call, some next) =>
      (runTraffic fuel (now + next.delay) next.pktSize next.pktCount next.pktInterval).map
        (fun calls => (now, call) :: calls)
    | (call, none) => some [(now, call)]

end Traffic

end WifiSimpleInterference

/-! # The sweep of `trabalho.cc` -/

namespace HeWifiNetwork

/-- A line the program prints after a run of the simulator: MCS, channel width,
guard interval and throughput. -/
abbrev Row (F : Type) := Int × Int × Int × F

/-- How the program ends: with an exit status, `exit (1)` and `return 0` alike,
after the lines printed so far; with a read of `prevThroughput` outside its 12
elements; or not within the fuel given to the loops. -/
inductive Ending (F : Type) where
  | exit (status : Nat) (rows : List (Row F))
  | outOfBounds
  | outOfFuel

/-- The command line values the sweep reads, and `throughput mcs channelWidth gi`,
the value of the variable `throughput` after the run of the simulator for these
three settings. -/
structure Arguments (F : Type) where
  frequency : F
  mcs : Int
  minExpectedThroughput : F
  maxExpectedThroughput : F
  throughput : Int → Int → Int → F

/-- The variables that live across the loops: the array `prevThroughput` and the
lines printed. -/
structure Sweep (F : Type) where
  prevThroughput : List F
  rows : List (Row F)

section Loops

variable {F : Type} [LinearOrderedField F]

/-- The body of the innermost loop up to, and without, `gi /= 2`: the check of
the frequency, the run, the line printed, the four checks of the throughput and
`index++` on a `uint8_t`. The values are `index`, `previous` and the variables
of `Sweep`. -/
def body (a : Arguments F) (mcs channelWidth gi : Int) (index : Nat) (previous : F)
    (st : Sweep F) : Except (Ending F) (Nat × F × Sweep F) := do
  if ¬ (a.frequency = 5 ∨ a.frequency = 24 / 10) then
    throw (Ending.exit 0 st.rows)
  let throughput := a.throughput mcs channelWidth gi
  let st := { st with rows := st.rows ++ [(mcs, channelWidth, gi, throughput)] }
  if mcs = 0 ∧ channelWidth = 20 ∧ gi = 3200 then
    if throughput < a.minExpectedThroughput then
      throw (Ending.exit 1 st.rows)
  if mcs = 11 ∧ channelWidth = 160 ∧ gi = 800 then
    if a.maxExpectedThroughput > 0 ∧ throughput > a.maxExpectedThroughput then
      throw (Ending.exit 1 st.rows)
  let previous ←
    if throughput > previous then pure throughput
    else throw (Ending.exit 1 st.rows)
  match st.prevThroughput[index]? with
  | none => throw Ending.outOfBounds
  | some old =>
    if throughput > old then
      let st := { st with prevThroughput := st.prevThroughput.set index throughput }
      pure ((index + 1) % 256, previous, st)
    else
      throw (Ending.exit 1 st.rows)

/-- The loop over the guard interval, `for (int gi = ...; gi >= 800; )` with
`gi /= 2` at the end of the body. -/
def giLoop (a : Arguments F) (mcs channelWidth : Int) :
    Nat → Int → Nat → F → Sweep F → Except (Ending F) (Nat × F × Sweep F)
  | 0, _, _, _, _ => throw Ending.outOfFuel
  | fuel + 1, gi, index, previous, st =>
    if gi ≥ 800 then do
      let (index, previous, st) ← body a mcs channelWidth gi index previous st
      giLoop a mcs channelWidth fuel (Int.tdiv gi 2) index previous st
    else
      pure (index, previous, st)

/-- The loop over the channel width, `for (int channelWidth = ...;
channelWidth <= maxChannelWidth; )` with `channelWidth *= 2` at the end of the
body; `fuel` is also the fuel of each inner loop. -/
def widthLoop (a : Arguments F) (mcs maxChannelWidth : Int) (fuel : Nat) :
    Nat → Int → Nat → F → Sweep F → Except (Ending F) (Nat × F × Sweep F)
  | 0, _, _, _, _ => throw Ending.outOfFuel
  | rounds + 1, channelWidth, index, previous, st =>
    if channelWidth ≤ maxChannelWidth then do
      let (index, previous, st) ← giLoop a mcs channelWidth fuel 3200 index previous st
      widthLoop a mcs maxChannelWidth fuel rounds
        (PowerAdaptationDistance.wrapInt32 (channelWidth * 2)) index previous st
    else
      pure (index, previous, st)

/-- The loop over the MCS, `for (int mcs = minMcs; mcs <= maxMcs; mcs++)`, with
the three variables set at the start of its body. -/
def mcsLoop (a : Arguments F) (maxMcs : Int) (fuel : Nat) :
    Nat → Int → Sweep F → Except (Ending F) (Sweep F)
  | 0, _, _ => throw Ending.outOfFuel
  | rounds + 1, mcs, st =>
    if mcs ≤ maxMcs then do
      let index : Nat := 0
      let previous : F := 0
      let maxChannelWidth : Int := if a.frequency = 24 / 10 then 40 else 160
      let (_, _, st) ← widthLoop a mcs maxChannelWidth fuel fuel 20 index previous st
      mcsLoop a maxMcs fuel rounds (PowerAdaptationDistance.wrapInt32 (mcs + 1)) st
    else
      pure st

/-- The function `main` from the initialisation of `prevThroughput` on. -/
def main (fuel : Nat) (a : Arguments F) : Ending F :=
  let prevThroughput : List F := List.replicate 12 0
  let minMcs : Int := if a.mcs ≥ 0 ∧ a.mcs ≤ 11 then a.mcs else 0
  let maxMcs : Int := if a.mcs ≥ 0 ∧ a.mcs ≤ 11 then a.mcs else 11
  match mcsLoop a maxMcs fuel fuel minMcs { prevThroughput := prevThroughput, rows := [] } with
  | Except.ok st => Ending.exit 0 st.rows
  | Except.error e => e

end Loops

/-! ## The order of the sweep, for the statements -/

section Order

variable {F : Type} [LinearOrderedField F]

/-- The channel widths in the order of the sweep: 20 and 40 at 2.4 GHz, up to 160
otherwise. -/
def channelWidths (a : Arguments F) : List Int :=
  if a.frequency = 24 / 10 then [20, 40] else [20, 40, 80, 160]

/-- The guard intervals in the order of the sweep. -/
def guardIntervals : List Int := [3200, 1600, 800]

/-- The pairs (channel width, guard interval) in visiting order: the widths
ascending and, for each width, the guard intervals descending. -/
def slots (a : Arguments F) : List (Int × Int) :=
  (channelWidths a).flatMap (fun w => guardIntervals.map (fun gi => (w, gi)))

/-- The MCS values in the order of the sweep: the one asked for when it lies in
0 .. 11, all of 0 .. 11 otherwise. -/
def mcsValues (a : Arguments F) : List Int :=
  if a.mcs ≥ 0 ∧ a.mcs ≤ 11 then [a.mcs] else [0, 1, 2, 3, 4, 5, 6, 7, 8, 9, 10, 11]

/-- The throughputs of one MCS in visiting order. -/
def throughputs (a : Arguments F) (mcs : Int) : List F :=
  (slots a).map (fun s => a.throughput mcs s.1 s.2)

/-- The lines of one MCS in visiting order. -/
def rowsOf (a : Arguments F) (mcs : Int) : List (Row F) :=
  (slots a).map (fun s => (mcs, s.1, s.2, a.throughput mcs s.1 s.2))

/-- The body of the innermost loop run over a list of pairs (channel width,
guard interval) in turn. -/
def slotFold (a : Arguments F) (mcs : Int) :
    List (Int × Int) → Nat → F → Sweep F → Except (Ending F) (Nat × F × Sweep F)
  | [], index, previous, st => pure (index, previous, st)
  | s :: rest, index, previous, st => do
    let (index, previous, st) ← body a mcs s.1 s.2 index previous st
    slotFold a mcs rest index previous st

/-- The body of the loop over the MCS run over a list of MCS values in turn, each
over the pairs of `slots`. -/
def mcsFold (a : Arguments F) : List Int → Sweep F → Except (Ending F) (Sweep F)
  | [], st => pure st
  | mcs :: rest, st => do
    let (_, _, st) ← slotFold a mcs (slots a) 0 0 st
    mcsFold a rest st

end Order

/-! ## Sample values for the concrete runs -/

/-- A throughput that grows along the sweep and with the MCS, for the concrete
runs. -/
def sampleThroughput (mcs channelWidth gi : Int) : ℚ :=
  ((mcs : ℚ) + 1) * ((channelWidth : ℚ) - (gi : ℚ) / 3200)

/-- A command line for the concrete runs: 2.4 GHz, MCS 5 alone, no maximum, and
the minimum given. -/
def sampleArguments (minExpectedThroughput : ℚ) : Arguments ℚ :=
  { frequency := 24 / 10, mcs := 5, minExpectedThroughput := minExpectedThroughput,
    maxExpectedThroughput := 0, throughput := sampleThroughput }

end HeWifiNetwork

namespace PowerAdaptationDistance

/-! ## Machine arithmetic: lemmas -/

theorem wrapInt32_eq_self (n : Int) (hlo : -2147483648 ≤ n) (hhi : n < 2147483648) :
    wrapInt32 n = n := by
  unfold wrapInt32
  norm_num
  omega

section Lemmas

variable {F : Type} [LinearOrderedField F]

theorem ddiv_eq_some (x y : F) (hy : y ≠ 0) : ddiv x y = some (x / y) := by
  simp [ddiv, hy]

theorem ddiv_zero_right (x : F) : ddiv x 0 = none := by
  simp [ddiv]

/-! ## The sample object -/

theorem sampleStats_m_output : (sampleStats F).m_output = [] := rfl

theorem sampleStats_m_output_power : (sampleStats F).m_output_power = [] := rfl

theorem sampleStats_totals :
    (sampleStats F).m_bytesTotal = 0 ∧ (sampleStats F).totalEnergy = 0 ∧
      (sampleStats F).totalTime = 0 :=
  ⟨rfl, rfl, rfl⟩

theorem sampleStats_timeTable :
    (sampleStats F).timeTable = [(1853 / 100000, 6000000), (1 / 4000, 54000000)] := by
  simp [sampleStats, NodeStatistics.ctor, defaultMembers, seedStations, SetupPhy, SetupPhyLoop,
    samplePhy]

theorem sampleStats_currentPower_station : (sampleStats F).currentPower 1 = some (-40) := by
  simp [sampleStats, NodeStatistics.ctor, defaultMembers, seedStations, SetupPhy, mapAssign,
    samplePhy]

theorem sampleStats_currentPower_broadcast :
    (sampleStats F).currentPower broadcastAddress = none := by
  simp [sampleStats, NodeStatistics.ctor, defaultMembers, seedStations, SetupPhy, mapAssign,
    broadcastAddress, Function.update]

theorem sampleStats_currentRate_station : (sampleStats F).currentRate 1 = some 6000000 := by
  simp [sampleStats, NodeStatistics.ctor, defaultMembers, seedStations, SetupPhy, mapAssign,
    samplePhy, broadcastAddress, Function.update]

theorem sampleStats_currentRate_broadcast :
    (sampleStats F).currentRate broadcastAddress = some 6000000 := by
  simp [sampleStats, NodeStatistics.ctor, defaultMembers, seedStations, SetupPhy, mapAssign,
    samplePhy]

theorem sampleStats_airtime : GetCalcTxTime (sampleStats F) 6000000 = some (1853 / 100000) := by
  rw [GetCalcTxTime, sampleStats_timeTable]
  simp [GetCalcTxTimeLoop]

/-! ## One call of `AdvancePosition` -/

theorem AdvancePosition_m_output (self : NodeStatistics F) (node : Node F)
    (stepsSize stepsTime : Int) :
    (AdvancePosition self node stepsSize stepsTime).stats.m_output =
      self.m_output ++ [(node.mobility.x,
        ddiv ((self.m_bytesTotal : F) * 8) ((wrapInt32 (1000000 * stepsTime) : Int) : F))] :=
  rfl

theorem AdvancePosition_m_output_power (self : NodeStatistics F) (node : Node F)
    (stepsSize stepsTime : Int) :
    (AdvancePosition self node stepsSize stepsTime).stats.m_output_power =
      self.m_output_power ++ [(node.mobility.x, ddiv self.totalEnergy ((stepsTime : Int) : F))] :=
  rfl

theorem AdvancePosition_node (self : NodeStatistics F) (node : Node F)
    (stepsSize stepsTime : Int) :
    (AdvancePosition self node stepsSize stepsTime).node =
      { mobility := { x := node.mobility.x + ((stepsSize : Int) : F)
                      y := node.mobility.y
                      z := node.mobility.z } } :=
  rfl

theorem AdvancePosition_next (self : NodeStatistics F) (node : Node F)
    (stepsSize stepsTime : Int) :
    (AdvancePosition self node stepsSize stepsTime).next =
      { delay := stepsTime, stepsSize := stepsSize, stepsTime := stepsTime } :=
  rfl

theorem AdvancePosition_accumulators (self : NodeStatistics F) (node : Node F)
    (stepsSize stepsTime : Int) :
    (AdvancePosition self node stepsSize stepsTime).stats.m_bytesTotal = 0 ∧
    (AdvancePosition self node stepsSize stepsTime).stats.totalEnergy = 0 ∧
    (AdvancePosition self node stepsSize stepsTime).stats.totalTime = 0 :=
  ⟨rfl, rfl, rfl⟩

/-- While `1000000 * stepsTime` fits an `int` and `stepsTime` is positive, the
throughput point of a tick is `(b * 8) / (1000000 * stepsTime)` at the abscissa
held before the advance. -/
theorem AdvancePosition_throughput_of_fits (self : NodeStatistics F) (node : Node F)
    (stepsSize stepsTime : Int) (hpos : 0 < stepsTime) (hfit : 1000000 * stepsTime < 2147483648) :
    (AdvancePosition self node stepsSize stepsTime).stats.m_output =
      self.m_output ++ [(node.mobility.x,
        some ((self.m_bytesTotal : F) * 8 / (1000000 * (stepsTime : F))))] := by
  rw [AdvancePosition_m_output, wrapInt32_eq_self _ (by omega) hfit]
  have hne : ((1000000 * stepsTime : Int) : F) ≠ 0 := by
    have : (1000000 * stepsTime : Int) ≠ 0 := by omega
    exact_mod_cast this
  rw [ddiv_eq_some _ _ hne]
  push_cast
  rfl

/-- For a positive `stepsTime` the power point of a tick is `totalEnergy / stepsTime`
at the abscissa held before the advance. -/
theorem AdvancePosition_power_sample_of_pos (self : NodeStatistics F) (node : Node F)
    (stepsSize stepsTime : Int) (hpos : 0 < stepsTime) :
    (AdvancePosition self node stepsSize stepsTime).stats.m_output_power =
      self.m_output_power ++ [(node.mobility.x, some (self.totalEnergy / (stepsTime : F)))] := by
  rw [AdvancePosition_m_output_power]
  have hne : ((stepsTime : Int) : F) ≠ 0 := by
    have : stepsTime ≠ 0 := by omega
    exact_mod_cast this
  rw [ddiv_eq_some _ _ hne]

/-- C1, at `stepsTime = 2148` with 1000000 bytes counted: the `int` product
`1000000 * 2148` does not fit 32 bits and comes out as `-2146967296`, so the
throughput point is `8000000 / (-2146967296)`, a negative number, and not
`(1000000 * 8) / (1000000 * 2148)`. -/
theorem AdvancePosition_throughput_overflow :
    wrapInt32 (1000000 * 2148) = -2146967296 ∧
    (AdvancePosition { sampleStats ℚ with m_bytesTotal := 1000000 } (sampleNode ℚ 0) 0
        2148).stats.m_output = [(0, some (8000000 / (-2146967296)))] ∧
    (8000000 / (-2146967296) : ℚ) < 0 ∧
    (8000000 / (-2146967296) : ℚ) ≠ ((1000000 : ℚ) * 8) / (1000000 * 2148) := by
  refine ⟨by decide, ?_, by norm_num, by norm_num⟩
  rw [AdvancePosition_m_output]
  have h : wrapInt32 (1000000 * 2148) = -2146967296 := by decide
  rw [h]
  simp [sampleStats_m_output, sampleNode, ddiv]
  norm_num

/-- The example of C1 within the range of `int`: 1000000 bytes and
`stepsTime = 1` give the throughput point 8. -/
theorem AdvancePosition_throughput_example :
    (AdvancePosition { sampleStats ℚ with m_bytesTotal := 1000000 } (sampleNode ℚ 0) 0
        1).stats.m_output = [(0, some 8)] := by
  rw [AdvancePosition_throughput_of_fits _ _ _ _ (by decide) (by decide)]
  simp [sampleStats_m_output, sampleStats_m_output_power, sampleNode]

/-- C2: for a positive `stepsTime`, a tick appends to the power series the point
whose abscissa is the x held before the advance and whose value is
`totalEnergy / stepsTime`; the points added before stay as they are. -/
theorem AdvancePosition_power_sample (self : NodeStatistics F) (node : Node F)
    (stepsSize stepsTime : Int) (hpos : 0 < stepsTime) :
    (AdvancePosition self node stepsSize stepsTime).stats.m_output_power =
      self.m_output_power ++ [(node.mobility.x, some (self.totalEnergy / (stepsTime : F)))] := by
  rw [AdvancePosition_m_output_power]
  have hne : ((stepsTime : Int) : F) ≠ 0 := by
    have : stepsTime ≠ 0 := by omega
    exact_mod_cast this
  rw [ddiv_eq_some _ _ hne]

theorem AdvancePosition_power_sample_witness :
    (0 : Int) < 2 ∧
    (AdvancePosition { sampleStats ℚ with totalEnergy := 3 } (sampleNode ℚ 5) 1
        2).stats.m_output_power = [(5, some (3 / 2))] := by
  refine ⟨by decide, ?_⟩
  rw [AdvancePosition_power_sample _ _ _ _ (by decide)]
  simp [sampleStats_m_output, sampleStats_m_output_power, sampleNode]

/-- C3 as stated fails at `stepsTime = 0`: the first tick clears the three
accumulators, and the second tick divides 0 by 0 twice, so the point it appends
to either series, at x = 1, has no value 0: both series hold `(0, none)` and
`(1, none)`. -/
theorem AdvancePosition_second_tick_zero_interval :
    (AdvancePosition (sampleStats ℚ) (sampleNode ℚ 0) 1 0).stats.m_bytesTotal = 0 ∧
    (AdvancePosition (sampleStats ℚ) (sampleNode ℚ 0) 1 0).stats.totalEnergy = 0 ∧
    (AdvancePosition (AdvancePosition (sampleStats ℚ) (sampleNode ℚ 0) 1 0).stats
        (AdvancePosition (sampleStats ℚ) (sampleNode ℚ 0) 1 0).node 1 0).stats.m_output
      = [(0, none), (1, none)] ∧
    (AdvancePosition (AdvancePosition (sampleStats ℚ) (sampleNode ℚ 0) 1 0).stats
        (AdvancePosition (sampleStats ℚ) (sampleNode ℚ 0) 1 0).node 1 0).stats.m_output_power
      = [(0, none), (1, none)] ∧
    (AdvancePosition (AdvancePosition (sampleStats ℚ) (sampleNode ℚ 0) 1 0).stats
        (AdvancePosition (sampleStats ℚ) (sampleNode ℚ 0) 1 0).node 1 0).stats.m_output
      ≠ [(0, none), (1, some 0)] := by
  have hout : (AdvancePosition (AdvancePosition (sampleStats ℚ) (sampleNode ℚ 0) 1 0).stats
      (AdvancePosition (sampleStats ℚ) (sampleNode ℚ 0) 1 0).node 1 0).stats.m_output
        = [(0, none), (1, none)] := by
    rw [AdvancePosition_m_output, AdvancePosition_m_output]
    simp [AdvancePosition_node, wrapInt32, ddiv, sampleNode, sampleStats_m_output]
  refine ⟨rfl, rfl, hout, ?_, ?_⟩
  · rw [AdvancePosition_m_output_power, AdvancePosition_m_output_power]
    simp [AdvancePosition_node, ddiv, sampleNode, sampleStats_m_output_power]
  · rw [hout]
    simp

/-- The divisor of the throughput can vanish for a positive `stepsTime` as well:
`1000000 * 67108864` is `15625 * 2 ^ 32`, which is 0 as an `int`. -/
theorem AdvancePosition_throughput_divisor_wraps :
    wrapInt32 (1000000 * 67108864) = 0 ∧
    (AdvancePosition (sampleStats ℚ) (sampleNode ℚ 0) 1 67108864).stats.m_output
      = [(0, none)] := by
  have h : wrapInt32 (1000000 * 67108864) = 0 := by decide
  refine ⟨h, ?_⟩
  rw [AdvancePosition_m_output, h]
  simp [ddiv, sampleNode, sampleStats_m_output]

/-- C3, amended: a tick clears `m_bytesTotal`, `totalEnergy` and `totalTime`
whatever its arguments; the tick that follows with nothing counted in between
appends the power value 0 when its `stepsTime` is not 0, and the throughput
value 0 when moreover `1000000 * stepsTime` fits an `int`. -/
theorem AdvancePosition_reset_then_zero (self : NodeStatistics F) (node : Node F)
    (stepsSize stepsTime stepsSize2 stepsTime2 : Int) :
    (AdvancePosition self node stepsSize stepsTime).stats.m_bytesTotal = 0 ∧
    (AdvancePosition self node stepsSize stepsTime).stats.totalEnergy = 0 ∧
    (AdvancePosition self node stepsSize stepsTime).stats.totalTime = 0 ∧
    (stepsTime2 ≠ 0 →
      (AdvancePosition (AdvancePosition self node stepsSize stepsTime).stats
          (AdvancePosition self node stepsSize stepsTime).node stepsSize2
          stepsTime2).stats.m_output_power
        = (AdvancePosition self node stepsSize stepsTime).stats.m_output_power ++
            [(node.mobility.x + ((stepsSize : Int) : F), some 0)]) ∧
    (stepsTime2 ≠ 0 →
      -2147483648 ≤ 1000000 * stepsTime2 → 1000000 * stepsTime2 < 2147483648 →
      (AdvancePosition (AdvancePosition self node stepsSize stepsTime).stats
          (AdvancePosition self node stepsSize stepsTime).node stepsSize2
          stepsTime2).stats.m_output
        = (AdvancePosition self node stepsSize stepsTime).stats.m_output ++
            [(node.mobility.x + ((stepsSize : Int) : F), some 0)]) := by
  refine ⟨rfl, rfl, rfl, ?_, ?_⟩
  · intro hne
    have hcast : ((stepsTime2 : Int) : F) ≠ 0 := by exact_mod_cast hne
    rw [AdvancePosition_m_output_power _ _ stepsSize2, ddiv_eq_some _ _ hcast,
      (AdvancePosition_accumulators self node stepsSize stepsTime).2.1, AdvancePosition_node]
    simp
  · intro hne hlo hhi
    have hprod : ((1000000 * stepsTime2 : Int) : F) ≠ 0 := by
      have : (1000000 * stepsTime2 : Int) ≠ 0 := by omega
      exact_mod_cast this
    rw [AdvancePosition_m_output _ _ stepsSize2, wrapInt32_eq_self _ hlo hhi,
      ddiv_eq_some _ _ hprod, (AdvancePosition_accumulators self node stepsSize stepsTime).1,
      AdvancePosition_node]
    simp

theorem AdvancePosition_reset_then_zero_witness :
    (AdvancePosition (AdvancePosition { sampleStats ℚ with m_bytesTotal := 7, totalEnergy := 3 }
        (sampleNode ℚ 0) 1 1).stats
        (AdvancePosition { sampleStats ℚ with m_bytesTotal := 7, totalEnergy := 3 }
        (sampleNode ℚ 0) 1 1).node 1 1).stats.m_output
      = [(0, some (7 * 8 / 1000000)), (1, some 0)] ∧
    (AdvancePosition (AdvancePosition { sampleStats ℚ with m_bytesTotal := 7, totalEnergy := 3 }
        (sampleNode ℚ 0) 1 2148).stats
        (AdvancePosition { sampleStats ℚ with m_bytesTotal := 7, totalEnergy := 3 }
        (sampleNode ℚ 0) 1 2148).node 1 2148).stats.m_output_power
      = [(0, some (3 / 2148)), (1, some 0)] := by
  have hout := (AdvancePosition_reset_then_zero
    { sampleStats ℚ with m_bytesTotal := 7, totalEnergy := 3 } (sampleNode ℚ 0) 1 1 1
    1).2.2.2.2 (by decide) (by decide) (by decide)
  have hpow := (AdvancePosition_reset_then_zero
    { sampleStats ℚ with m_bytesTotal := 7, totalEnergy := 3 } (sampleNode ℚ 0) 1 2148 1
    2148).2.2.2.1 (by decide)
  constructor
  · rw [hout, AdvancePosition_throughput_of_fits _ _ _ _ (by decide) (by decide)]
    simp [sampleStats_m_output, sampleNode]
  · rw [hpow, AdvancePosition_power_sample_of_pos _ _ _ _ (by decide)]
    simp [sampleStats_m_output_power, sampleNode]

/-! ## The sweep -/

theorem sweep_succ (n : Nat) (self : NodeStatistics F) (node : Node F)
    (stepsSize stepsTime : Int) :
    sweep (n + 1) self node stepsSize stepsTime =
      sweep n (AdvancePosition self node stepsSize stepsTime).stats
        (AdvancePosition self node stepsSize stepsTime).node stepsSize stepsTime :=
  rfl

/-- Abscissae of the points `n` ticks record, from `x0` on with step `d`. -/
theorem range_map_shift (n : Nat) (x0 d : F) :
    x0 :: (List.range n).map (fun k : Nat => x0 + d + (k : F) * d) =
      (List.range (n + 1)).map (fun k : Nat => x0 + (k : F) * d) := by
  rw [List.range_succ_eq_map, List.map_cons, List.map_map]
  congr 1
  · simp
  · apply List.map_congr_left
    intro k _
    simp only [Function.comp_apply, Nat.succ_eq_add_one]
    push_cast
    ring

/-- After `n` ticks the x-coordinate has advanced `n` times, and each series has
gained one point per tick, recorded at the x held before that tick's advance. -/
theorem sweep_trace (n : Nat) (self : NodeStatistics F) (node : Node F)
    (stepsSize stepsTime : Int) :
    (sweep n self node stepsSize stepsTime).2.mobility.x =
        node.mobility.x + (n : F) * ((stepsSize : Int) : F) ∧
    (sweep n self node stepsSize stepsTime).1.m_output.map Prod.fst =
        self.m_output.map Prod.fst ++
          (List.range n).map
            (fun k : Nat => node.mobility.x + (k : F) * ((stepsSize : Int) : F)) ∧
    (sweep n self node stepsSize stepsTime).1.m_output_power.map Prod.fst =
        self.m_output_power.map Prod.fst ++
          (List.range n).map
            (fun k : Nat => node.mobility.x + (k : F) * ((stepsSize : Int) : F)) := by
  induction n generalizing self node with
  | zero => simp [sweep]
  | succ n ih =>
    rw [sweep_succ]
    obtain ⟨hx, ho, hp⟩ := ih (AdvancePosition self node stepsSize stepsTime).stats
      (AdvancePosition self node stepsSize stepsTime).node
    rw [hx, ho, hp, AdvancePosition_node, AdvancePosition_m_output,
      AdvancePosition_m_output_power]
    refine ⟨?_, ?_, ?_⟩
    · push_cast
      ring
    · rw [List.map_append, List.append_assoc, ← range_map_shift]
      rfl
    · rw [List.map_append, List.append_assoc, ← range_map_shift]
      rfl

/-- C4: from an object whose two series are empty and a station at `x0`, `n` ticks
with step `stepsSize` leave the station at `x0 + n * stepsSize`, and each series
holds exactly `n` points, of abscissae `x0, x0 + stepsSize, ...,
x0 + (n - 1) * stepsSize` in this order. -/
theorem sweep_positions (n : Nat) (self : NodeStatistics F) (node : Node F)
    (stepsSize stepsTime : Int) (hout : self.m_output = []) (hpow : self.m_output_power = []) :
    (sweep n self node stepsSize stepsTime).2.mobility.x =
        node.mobility.x + (n : F) * ((stepsSize : Int) : F) ∧
    (sweep n self node stepsSize stepsTime).1.m_output.length = n ∧
    (sweep n self node stepsSize stepsTime).1.m_output_power.length = n ∧
    (sweep n self node stepsSize stepsTime).1.m_output.map Prod.fst =
        (List.range n).map (fun k : Nat => node.mobility.x + (k : F) * ((stepsSize : Int) : F)) ∧
    (sweep n self node stepsSize stepsTime).1.m_output_power.map Prod.fst =
        (List.range n).map
          (fun k : Nat => node.mobility.x + (k : F) * ((stepsSize : Int) : F)) := by
  obtain ⟨hx, ho, hp⟩ := sweep_trace n self node stepsSize stepsTime
  rw [hout, List.map_nil, List.nil_append] at ho
  rw [hpow, List.map_nil, List.nil_append] at hp
  refine ⟨hx, ?_, ?_, ho, hp⟩
  · have h := congrArg List.length ho
    simpa using h
  · have h := congrArg List.length hp
    simpa using h

theorem sweep_positions_witness :
    (sweep 3 (sampleStats ℚ) (sampleNode ℚ (-1)) 2 1).2.mobility.x = 5 ∧
    (sweep 3 (sampleStats ℚ) (sampleNode ℚ (-1)) 2 1).1.m_output.map Prod.fst = [-1, 1, 3] ∧
    (sweep 3 (sampleStats ℚ) (sampleNode ℚ (-1)) 2 1).1.m_output_power.map Prod.fst
      = [-1, 1, 3] := by
  obtain ⟨hx, _, _, ho, hp⟩ := sweep_positions 3 (sampleStats ℚ) (sampleNode ℚ (-1)) 2 1
    sampleStats_m_output sampleStats_m_output_power
  rw [hx, ho, hp]
  simp [sampleNode, List.range_succ]
  norm_num

/-- C5: a tick leaves the y and z coordinates of the station as they were, for
every object, node and pair of arguments; x is the one coordinate written, and
it moves by `stepsSize`. -/
theorem AdvancePosition_keeps_y_z (self : NodeStatistics F) (node : Node F)
    (stepsSize stepsTime : Int) :
    (AdvancePosition self node stepsSize stepsTime).node.mobility.y = node.mobility.y ∧
    (AdvancePosition self node stepsSize stepsTime).node.mobility.z = node.mobility.z ∧
    (AdvancePosition self node stepsSize stepsTime).node.mobility.x =
      node.mobility.x + ((stepsSize : Int) : F) :=
  ⟨rfl, rfl, rfl⟩

/-! ## `PhyCallback` -/

theorem mapIndex_of_some {V : Type} (m : Mac48Address → Option V) (k : Mac48Address) (dflt v : V)
    (h : m k = some v) : mapIndex m k dflt = (v, m) := by
  simp [mapIndex, h]

theorem mapIndex_of_none {V : Type} (m : Mac48Address → Option V) (k : Mac48Address) (dflt : V)
    (h : m k = none) : mapIndex m k dflt = (dflt, Function.update m k (some dflt)) := by
  simp [mapIndex, h]

/-- After `m[k]` the key is present, with the value that was read. -/
theorem mapIndex_snd_self {V : Type} (m : Mac48Address → Option V) (k : Mac48Address) (dflt : V) :
    (mapIndex m k dflt).2 k = some (mapIndex m k dflt).1 := by
  cases h : m k with
  | some v => simp [mapIndex, h]
  | none => simp [mapIndex, h]

/-- Reading `m[k]` neither changes nor removes an entry. -/
theorem mapIndex_snd_of_some {V : Type} (m : Mac48Address → Option V) (k d : Mac48Address)
    (dflt v : V) (h : m d = some v) : (mapIndex m k dflt).2 d = some v := by
  cases hk : m k with
  | some w => simpa [mapIndex, hk] using h
  | none =>
    have hne : d ≠ k := by
      intro hdk
      rw [hdk, hk] at h
      cases h
    simp [mapIndex, hk, Function.update_noteq hne, h]

/-- Reading `m[k]` leaves the other keys as they were. -/
theorem mapIndex_snd_of_ne {V : Type} (m : Mac48Address → Option V) (k d : Mac48Address)
    (dflt : V) (hne : d ≠ k) : (mapIndex m k dflt).2 d = m d := by
  cases hk : m k with
  | some w => simp [mapIndex, hk]
  | none => simp [mapIndex, hk, Function.update_noteq hne]

/-- A data frame: the call ends at the assertion when the rate read for the
destination is not in the table, and otherwise leaves `afterDataFrame`. -/
theorem PhyCallback_data (pow : F → F → F) (self : NodeStatistics F) (packet : Packet)
    (hdata : packet.PeekHeader.GetType = WifiMacType.WIFI_MAC_DATA) :
    PhyCallback pow self packet =
      (GetCalcTxTimeLoop (mapIndex self.currentRate packet.PeekHeader.GetAddr1 defaultDataRate).1
        self.timeTable).map (afterDataFrame pow self packet.PeekHeader.GetAddr1) := by
  unfold PhyCallback
  simp only [hdata, if_true]
  cases hr : self.currentRate packet.PeekHeader.GetAddr1 with
  | some r =>
    cases ht : GetCalcTxTimeLoop r self.timeTable with
    | none => simp [mapIndex, hr, GetCalcTxTime, ht]
    | some a => simp [mapIndex, hr, GetCalcTxTime, ht, afterDataFrame]
  | none =>
    cases ht : GetCalcTxTimeLoop defaultDataRate self.timeTable with
    | none => simp [mapIndex, hr, GetCalcTxTime, ht]
    | some a => simp [mapIndex, hr, GetCalcTxTime, ht, afterDataFrame]

/-- A frame of another type: nothing is done. -/
theorem PhyCallback_other (pow : F → F → F) (self : NodeStatistics F) (packet : Packet)
    (hdata : packet.PeekHeader.GetType ≠ WifiMacType.WIFI_MAC_DATA) :
    PhyCallback pow self packet = some self := by
  simp [PhyCallback, hdata]

/-- A data frame for a destination present in both maps, whose rate is in the
table with duration `a`: the call returns, adds `pow 10 (P / 10) * a` to
`totalEnergy` and `a` to `totalTime`, and leaves everything else as it was. -/
theorem PhyCallback_data_seeded (pow : F → F → F) (self : NodeStatistics F) (packet : Packet)
    (P : F) (rate : DataRate) (a : F)
    (hdata : packet.PeekHeader.GetType = WifiMacType.WIFI_MAC_DATA)
    (hP : self.currentPower packet.PeekHeader.GetAddr1 = some P)
    (hr : self.currentRate packet.PeekHeader.GetAddr1 = some rate)
    (ha : GetCalcTxTime self rate = some a) :
    PhyCallback pow self packet =
      some { self with
        totalEnergy := self.totalEnergy + pow 10 (P / 10) * a
        totalTime := self.totalTime + a } := by
  rw [PhyCallback_data pow self packet hdata, mapIndex_of_some _ _ _ _ hr]
  unfold GetCalcTxTime at ha
  simp only [ha, Option.map_some', afterDataFrame, mapIndex_of_some _ _ _ _ hP,
    mapIndex_of_some _ _ _ _ hr]

/-- C6: a data frame whose destination has the stored power `P` and a stored rate
that the table maps to the airtime `a` makes `PhyCallback` return with
`totalEnergy` increased by `10 ^ (P / 10) * a`, `totalTime` increased by `a` and
`m_bytesTotal` as it was. -/
theorem PhyCallback_energy (self : NodeStatistics ℝ) (packet : Packet)
    (P : ℝ) (rate : DataRate) (a : ℝ)
    (hdata : packet.PeekHeader.GetType = WifiMacType.WIFI_MAC_DATA)
    (hP : self.currentPower packet.PeekHeader.GetAddr1 = some P)
    (hr : self.currentRate packet.PeekHeader.GetAddr1 = some rate)
    (ha : GetCalcTxTime self rate = some a) :
    ∃ after : NodeStatistics ℝ,
      PhyCallback (fun b e : ℝ => b ^ e) self packet = some after ∧
      after.totalEnergy = self.totalEnergy + (10 : ℝ) ^ (P / 10) * a ∧
      after.totalTime = self.totalTime + a ∧
      after.m_bytesTotal = self.m_bytesTotal :=
  ⟨_, PhyCallback_data_seeded _ self packet P rate a hdata hP hr ha, rfl, rfl, rfl⟩

theorem PhyCallback_energy_witness :
    ∃ after : NodeStatistics ℝ,
      PhyCallback (fun b e : ℝ => b ^ e) (sampleStats ℝ) (frameTo 1 WifiMacType.WIFI_MAC_DATA)
        = some after ∧
      after.totalEnergy = 1853 / 1000000000 ∧
      after.totalTime = 1853 / 100000 := by
  obtain ⟨after, hcall, henergy, htime, _⟩ :=
    PhyCallback_energy (sampleStats ℝ) (frameTo 1 WifiMacType.WIFI_MAC_DATA) (-40) 6000000
      (1853 / 100000) rfl sampleStats_currentPower_station sampleStats_currentRate_station
      sampleStats_airtime
  refine ⟨after, hcall, ?_, ?_⟩
  · rw [henergy, sampleStats_totals.2.1]
    have hexp : ((-40 : ℝ) / 10) = -((4 : ℕ) : ℝ) := by norm_num
    rw [hexp, Real.rpow_neg (by norm_num), Real.rpow_natCast]
    norm_num
  · rw [htime, sampleStats_totals.2.2]
    norm_num

/-- C7: for a frame whose type is not `WIFI_MAC_DATA`, `PhyCallback` returns and
leaves `totalEnergy`, `totalTime` and `m_bytesTotal` as they were; the object as
a whole is unchanged. -/
theorem PhyCallback_non_data (pow : F → F → F) (self : NodeStatistics F) (packet : Packet)
    (hdata : packet.PeekHeader.GetType ≠ WifiMacType.WIFI_MAC_DATA) :
    ∃ after : NodeStatistics F,
      PhyCallback pow self packet = some after ∧
      after.totalEnergy = self.totalEnergy ∧
      after.totalTime = self.totalTime ∧
      after.m_bytesTotal = self.m_bytesTotal ∧
      after = self :=
  ⟨self, PhyCallback_other pow self packet hdata, rfl, rfl, rfl, rfl⟩

theorem PhyCallback_non_data_witness :
    ∃ after : NodeStatistics ℝ,
      PhyCallback (fun b e : ℝ => b ^ e) { sampleStats ℝ with totalEnergy := 3, totalTime := 2 }
        (frameTo 1 WifiMacType.WIFI_MAC_MGT_BEACON) = some after ∧
      after.totalEnergy = 3 ∧ after.totalTime = 2 := by
  obtain ⟨after, hcall, henergy, htime, _, _⟩ :=
    PhyCallback_non_data (fun b e : ℝ => b ^ e)
      { sampleStats ℝ with totalEnergy := 3, totalTime := 2 }
      (frameTo 1 WifiMacType.WIFI_MAC_MGT_BEACON) (by decide)
  exact ⟨after, hcall, henergy, htime⟩

end Lemmas

/-! ## `PowerCallback` and `RateCallback` -/

/-- C8: `PowerCallback` stores `newPower` for `dest`, whatever was stored and
whatever `oldPower` is, and leaves the power of every other destination, all
rates and every other member as they were; `RateCallback` does the same with
`newRate` in the rate map. -/
theorem callbacks_overwrite {F : Type} (self : NodeStatistics F) (oldPower newPower : F)
    (oldRate newRate : DataRate) (dest : Mac48Address) :
    ((PowerCallback self oldPower newPower dest).currentPower dest = some newPower ∧
      (∀ d, d ≠ dest →
        (PowerCallback self oldPower newPower dest).currentPower d = self.currentPower d) ∧
      (PowerCallback self oldPower newPower dest).currentRate = self.currentRate ∧
      (PowerCallback self oldPower newPower dest).m_bytesTotal = self.m_bytesTotal ∧
      (PowerCallback self oldPower newPower dest).totalEnergy = self.totalEnergy ∧
      (PowerCallback self oldPower newPower dest).totalTime = self.totalTime ∧
      (PowerCallback self oldPower newPower dest).timeTable = self.timeTable ∧
      (PowerCallback self oldPower newPower dest).m_output = self.m_output ∧
      (PowerCallback self oldPower newPower dest).m_output_power = self.m_output_power) ∧
    ((RateCallback self oldRate newRate dest).currentRate dest = some newRate ∧
      (∀ d, d ≠ dest →
        (RateCallback self oldRate newRate dest).currentRate d = self.currentRate d) ∧
      (RateCallback self oldRate newRate dest).currentPower = self.currentPower ∧
      (RateCallback self oldRate newRate dest).m_bytesTotal = self.m_bytesTotal ∧
      (RateCallback self oldRate newRate dest).totalEnergy = self.totalEnergy ∧
      (RateCallback self oldRate newRate dest).totalTime = self.totalTime ∧
      (RateCallback self oldRate newRate dest).timeTable = self.timeTable ∧
      (RateCallback self oldRate newRate dest).m_output = self.m_output ∧
      (RateCallback self oldRate newRate dest).m_output_power = self.m_output_power) := by
  refine ⟨⟨?_, ?_, rfl, rfl, rfl, rfl, rfl, rfl, rfl⟩,
    ⟨?_, ?_, rfl, rfl, rfl, rfl, rfl, rfl, rfl⟩⟩
  · simp [PowerCallback, mapAssign]
  · intro d hd
    simp [PowerCallback, mapAssign, Function.update_noteq hd]
  · simp [RateCallback, mapAssign]
  · intro d hd
    simp [RateCallback, mapAssign, Function.update_noteq hd]

theorem callbacks_overwrite_witness :
    (PowerCallback (sampleStats ℚ) (-40) (-55) 1).currentPower 1 = some (-55) ∧
    (PowerCallback (sampleStats ℚ) (-40) (-55) 1).currentPower broadcastAddress = none ∧
    (RateCallback (sampleStats ℚ) 6000000 54000000 1).currentRate 1 = some 54000000 ∧
    (RateCallback (sampleStats ℚ) 6000000 54000000 1).currentRate broadcastAddress
      = some 6000000 := by
  have h := callbacks_overwrite (sampleStats ℚ) (-40) (-55) 6000000 54000000 1
  refine ⟨h.1.1, ?_, h.2.1, ?_⟩
  · rw [h.1.2.1 broadcastAddress (by decide)]
    exact sampleStats_currentPower_broadcast
  · rw [h.2.2.1 broadcastAddress (by decide)]
    exact sampleStats_currentRate_broadcast

section Frame

variable {F : Type} [LinearOrderedField F]

/-! ## The maps under `PhyCallback` -/

/-- C9 as stated fails for a data frame to the broadcast address on the sample
object, where the constructor stored a rate and no power for that address: the
call returns, and `currentPower` has gained the entry 0 for it. -/
theorem PhyCallback_inserts_power_entry :
    (sampleStats ℝ).currentPower broadcastAddress = none ∧
    ∃ after : NodeStatistics ℝ,
      PhyCallback (fun b e : ℝ => b ^ e) (sampleStats ℝ)
        (frameTo broadcastAddress WifiMacType.WIFI_MAC_DATA) = some after ∧
      after.currentPower broadcastAddress = some 0 ∧
      after.currentPower ≠ (sampleStats ℝ).currentPower := by
  refine ⟨sampleStats_currentPower_broadcast, afterDataFrame (fun b e : ℝ => b ^ e)
    (sampleStats ℝ) broadcastAddress (1853 / 100000), ?_, ?_, ?_⟩
  · rw [PhyCallback_data _ _ _ rfl]
    have hrate : (sampleStats ℝ).currentRate (frameTo broadcastAddress
        WifiMacType.WIFI_MAC_DATA).PeekHeader.GetAddr1 = some 6000000 :=
      sampleStats_currentRate_broadcast
    have hair := sampleStats_airtime (F := ℝ)
    unfold GetCalcTxTime at hair
    rw [mapIndex_of_some _ _ _ _ hrate]
    simp only [hair, Option.map_some']
    rfl
  · have h := mapIndex_snd_self (sampleStats ℝ).currentPower broadcastAddress 0
    rw [mapIndex_of_none _ _ _ sampleStats_currentPower_broadcast] at h
    exact h
  · intro heq
    have h := mapIndex_snd_self (sampleStats ℝ).currentPower broadcastAddress 0
    have h2 := congrFun heq broadcastAddress
    simp only [afterDataFrame] at h2
    rw [h2, sampleStats_currentPower_broadcast] at h
    cases h

/-- C9, amended: a call of `PhyCallback` that returns neither changes nor removes
an entry of `currentPower` or `currentRate`, and leaves the entries of every
address but the destination as they were. Both maps are exactly as before for a
frame that is not a data frame, and each map is exactly as before when the
destination has an entry in it. A data frame for a destination without entry
adds the entry: power 0, rate `DataRate ()`. -/
theorem PhyCallback_maps (pow : F → F → F) (self after : NodeStatistics F) (packet : Packet)
    (hcall : PhyCallback pow self packet = some after) :
    (∀ d v, self.currentPower d = some v → after.currentPower d = some v) ∧
    (∀ d r, self.currentRate d = some r → after.currentRate d = some r) ∧
    (∀ d, d ≠ packet.PeekHeader.GetAddr1 →
      after.currentPower d = self.currentPower d ∧ after.currentRate d = self.currentRate d) ∧
    (packet.PeekHeader.GetType ≠ WifiMacType.WIFI_MAC_DATA →
      after.currentPower = self.currentPower ∧ after.currentRate = self.currentRate) ∧
    (∀ v, self.currentPower packet.PeekHeader.GetAddr1 = some v →
      after.currentPower = self.currentPower) ∧
    (∀ r, self.currentRate packet.PeekHeader.GetAddr1 = some r →
      after.currentRate = self.currentRate) ∧
    (packet.PeekHeader.GetType = WifiMacType.WIFI_MAC_DATA →
      self.currentPower packet.PeekHeader.GetAddr1 = none →
      after.currentPower packet.PeekHeader.GetAddr1 = some 0) ∧
    (packet.PeekHeader.GetType = WifiMacType.WIFI_MAC_DATA →
      self.currentRate packet.PeekHeader.GetAddr1 = none →
      after.currentRate packet.PeekHeader.GetAddr1 = some defaultDataRate) := by
  by_cases hdata : packet.PeekHeader.GetType = WifiMacType.WIFI_MAC_DATA
  · rw [PhyCallback_data pow self packet hdata] at hcall
    obtain ⟨a, _, hafter⟩ := Option.map_eq_some'.mp hcall
    subst hafter
    refine ⟨?_, ?_, ?_, ?_, ?_, ?_, ?_, ?_⟩
    · intro d v h
      exact mapIndex_snd_of_some _ _ _ _ _ h
    · intro d r h
      exact mapIndex_snd_of_some _ _ _ _ _ h
    · intro d hne
      exact ⟨mapIndex_snd_of_ne _ _ _ _ hne, mapIndex_snd_of_ne _ _ _ _ hne⟩
    · intro hnot
      exact absurd hdata hnot
    · intro v h
      simp only [afterDataFrame, mapIndex_of_some _ _ _ _ h]
    · intro r h
      simp only [afterDataFrame, mapIndex_of_some _ _ _ _ h]
    · intro _ h
      have hs := mapIndex_snd_self self.currentPower packet.PeekHeader.GetAddr1 0
      rw [mapIndex_of_none _ _ _ h] at hs
      simp [afterDataFrame, mapIndex_of_none _ _ _ h]
    · intro _ h
      have hs := mapIndex_snd_self self.currentRate packet.PeekHeader.GetAddr1 defaultDataRate
      rw [mapIndex_of_none _ _ _ h] at hs
      simp [afterDataFrame, mapIndex_of_none _ _ _ h]
  · rw [PhyCallback_other pow self packet hdata] at hcall
    cases hcall
    refine ⟨fun _ _ h => h, fun _ _ h => h, fun _ _ => ⟨rfl, rfl⟩, fun _ => ⟨rfl, rfl⟩,
      fun _ _ => rfl, fun _ _ => rfl, fun h => absurd h hdata, fun h => absurd h hdata⟩

theorem PhyCallback_maps_witness :
    ∃ after : NodeStatistics ℝ,
      PhyCallback (fun b e : ℝ => b ^ e) (sampleStats ℝ) (frameTo 1 WifiMacType.WIFI_MAC_DATA)
        = some after ∧
      after.currentPower = (sampleStats ℝ).currentPower ∧
      after.currentRate = (sampleStats ℝ).currentRate := by
  have hcall := PhyCallback_data_seeded (fun b e : ℝ => b ^ e) (sampleStats ℝ)
    (frameTo 1 WifiMacType.WIFI_MAC_DATA) (-40) 6000000 (1853 / 100000) rfl
    sampleStats_currentPower_station sampleStats_currentRate_station sampleStats_airtime
  have h := PhyCallback_maps (fun b e : ℝ => b ^ e) (sampleStats ℝ) _
    (frameTo 1 WifiMacType.WIFI_MAC_DATA) hcall
  exact ⟨_, hcall, h.2.2.2.2.1 (-40) sampleStats_currentPower_station,
    h.2.2.2.2.2.1 6000000 sampleStats_currentRate_station⟩

end Frame

/-! ## The duration table -/

section TableLoops

variable {F : Type}

/-- The loop of `SetupPhy` pushes the entries of the modes `i, i + 1, ...`, one a round. -/
theorem SetupPhyLoop_eq (phy : WifiPhy F) (fuel i : Nat) (timeTable : TxTime F) :
    SetupPhyLoop phy fuel i timeTable =
      timeTable ++ (List.range' i fuel).map (fun k => (modeDuration phy k, modeRate phy k)) := by
  induction fuel generalizing i timeTable with
  | zero => simp [SetupPhyLoop]
  | succ fuel ih =>
    rw [SetupPhyLoop, ih, List.range'_succ, List.map_cons, List.append_assoc]
    rfl

/-- The lookup, for a rate that some entry of the table has: it returns the
duration of the first such entry. -/
theorem GetCalcTxTimeLoop_first (rate : DataRate) (table : TxTime F) (i : Nat) (e : F × DataRate)
    (hi : table[i]? = some e) (he : e.2 = rate) :
    ∃ j d, j ≤ i ∧ table[j]? = some (d, rate) ∧
      (∀ k e2, k < j → table[k]? = some e2 → e2.2 ≠ rate) ∧
      GetCalcTxTimeLoop rate table = some d := by
  induction table generalizing i with
  | nil => simp at hi
  | cons hd tl ih =>
    by_cases hrate : rate = hd.2
    · refine ⟨0, hd.1, Nat.zero_le i, ?_, ?_, ?_⟩
      · simp [hrate]
      · intro k e2 hk
        exact absurd hk (Nat.not_lt_zero k)
      · simp [GetCalcTxTimeLoop, hrate]
    · cases i with
      | zero =>
        simp only [List.getElem?_cons_zero, Option.some.injEq] at hi
        rw [hi] at hrate
        exact absurd he.symm hrate
      | succ i =>
        simp only [List.getElem?_cons_succ] at hi
        obtain ⟨j, d, hji, hj, hbefore, hloop⟩ := ih i hi
        refine ⟨j + 1, d, Nat.succ_le_succ hji, by simpa using hj, ?_, ?_⟩
        · intro k e2 hk hk2
          cases k with
          | zero =>
            simp only [List.getElem?_cons_zero, Option.some.injEq] at hk2
            rw [← hk2]
            exact fun h => hrate h.symm
          | succ k =>
            simp only [List.getElem?_cons_succ] at hk2
            exact hbefore k e2 (Nat.lt_of_succ_lt_succ hk) hk2
        · simp [GetCalcTxTimeLoop, hrate, hloop]

theorem SetupPhy_timeTable (self : NodeStatistics F) (phy : WifiPhy F) :
    (SetupPhy self phy).timeTable =
      self.timeTable ++
        (List.range phy.GetNModes).map (fun k => (modeDuration phy k, modeRate phy k)) := by
  rw [List.range_eq_range']
  exact SetupPhyLoop_eq phy phy.GetNModes 0 self.timeTable

end TableLoops

section Table

variable {F : Type} [LinearOrderedField F]

/-- C10: on an object whose table is empty, as in the constructor, `SetupPhy`
leaves a table with one entry (duration, rate) for each mode, in mode order.
For the rate of any mode `i`, `GetCalcTxTime` then returns (the assertion is not
reached) the duration of the first entry `j` of the table with that rate, and
this duration is positive when the durations computed for all modes are. -/
theorem SetupPhy_lookup (self : NodeStatistics F) (phy : WifiPhy F)
    (hempty : self.timeTable = []) :
    (SetupPhy self phy).timeTable =
        (List.range phy.GetNModes).map (fun k => (modeDuration phy k, modeRate phy k)) ∧
    (SetupPhy self phy).timeTable.length = phy.GetNModes ∧
    ∀ i, i < phy.GetNModes →
      ∃ j, j ≤ i ∧
        (SetupPhy self phy).timeTable[j]? = some (modeDuration phy j, modeRate phy i) ∧
        (∀ k, k < j → modeRate phy k ≠ modeRate phy i) ∧
        GetCalcTxTime (SetupPhy self phy) (modeRate phy i) = some (modeDuration phy j) ∧
        ((∀ k, k < phy.GetNModes → 0 < modeDuration phy k) → 0 < modeDuration phy j) := by
  have htable : (SetupPhy self phy).timeTable =
      (List.range phy.GetNModes).map (fun k => (modeDuration phy k, modeRate phy k)) := by
    rw [SetupPhy_timeTable, hempty, List.nil_append]
  have hget : ∀ k, k < phy.GetNModes →
      (SetupPhy self phy).timeTable[k]? = some (modeDuration phy k, modeRate phy k) := by
    intro k hk
    rw [htable, List.getElem?_map, List.getElem?_range hk]
    rfl
  refine ⟨htable, by rw [htable]; simp, ?_⟩
  intro i hi
  obtain ⟨j, d, hji, hj, hbefore, hloop⟩ :=
    GetCalcTxTimeLoop_first (modeRate phy i) (SetupPhy self phy).timeTable i _ (hget i hi) rfl
  have hjn : j < phy.GetNModes := Nat.lt_of_le_of_lt hji hi
  have hentry := hget j hjn
  rw [hj] at hentry
  have hd : d = modeDuration phy j := congrArg Prod.fst (Option.some.inj hentry)
  subst hd
  refine ⟨j, hji, hj, ?_, hloop, fun hall => hall j hjn⟩
  intro k hk
  exact hbefore k _ hk (hget k (Nat.lt_trans hk hjn))

theorem SetupPhy_lookup_witness :
    (SetupPhy (defaultMembers (samplePhy ℚ)) (samplePhy ℚ)).timeTable
      = [(1853 / 100000, 6000000), (1 / 4000, 54000000)] ∧
    GetCalcTxTime (SetupPhy (defaultMembers (samplePhy ℚ)) (samplePhy ℚ)) 54000000
      = some (1 / 4000) := by
  obtain ⟨htable, _, _⟩ :=
    SetupPhy_lookup (defaultMembers (samplePhy ℚ)) (samplePhy ℚ) rfl
  have hlist : (SetupPhy (defaultMembers (samplePhy ℚ)) (samplePhy ℚ)).timeTable
      = [(1853 / 100000, 6000000), (1 / 4000, 54000000)] := by
    rw [htable]
    simp [samplePhy, List.range_succ, modeDuration, modeRate]
  refine ⟨hlist, ?_⟩
  rw [GetCalcTxTime, hlist]
  simp [GetCalcTxTimeLoop]

end Table

/-! ## The lookup that fails -/

section Assertion

variable {F : Type}

/-- The lookup ends at the assertion exactly when no entry has the rate. -/
theorem GetCalcTxTimeLoop_eq_none (rate : DataRate) (table : TxTime F) :
    GetCalcTxTimeLoop rate table = none ↔ ∀ e ∈ table, e.2 ≠ rate := by
  induction table with
  | nil => simp [GetCalcTxTimeLoop]
  | cons hd tl ih =>
    by_cases hrate : rate = hd.2
    · simp [GetCalcTxTimeLoop, hrate]
    · have hne : ¬ hd.2 = rate := fun h => hrate h.symm
      simp [GetCalcTxTimeLoop, hrate, hne, ih]

/-- A duration the lookup returns belongs to an entry with the rate asked for. -/
theorem GetCalcTxTimeLoop_mem (rate : DataRate) (table : TxTime F) (d : F)
    (h : GetCalcTxTimeLoop rate table = some d) : (d, rate) ∈ table := by
  induction table with
  | nil => simp [GetCalcTxTimeLoop] at h
  | cons hd tl ih =>
    by_cases hrate : rate = hd.2
    · simp only [GetCalcTxTimeLoop, hrate, if_true, Option.some.injEq] at h
      rw [← h, hrate]
      exact List.mem_cons_self _ _
    · simp only [GetCalcTxTimeLoop, hrate, if_false] at h
      exact List.mem_cons_of_mem _ (ih h)

end Assertion

section Handlers

variable {F : Type}

/-- C11: `GetCalcTxTime` reaches `NS_ASSERT (false)` if and only if no entry of
`timeTable` has the rate asked for, and a duration it returns is the duration of
an entry of the table with that rate: no duration is returned for a rate that
the table does not hold. -/
theorem GetCalcTxTime_fails_iff (self : NodeStatistics F) (rate : DataRate) :
    (GetCalcTxTime self rate = none ↔ ∀ e ∈ self.timeTable, e.2 ≠ rate) ∧
    (∀ d, GetCalcTxTime self rate = some d → (d, rate) ∈ self.timeTable) ∧
    ((∀ e ∈ self.timeTable, e.2 ≠ rate) → ∀ d, GetCalcTxTime self rate ≠ some d) := by
  refine ⟨GetCalcTxTimeLoop_eq_none rate self.timeTable,
    fun d h => GetCalcTxTimeLoop_mem rate self.timeTable d h, ?_⟩
  intro hno d hd
  have hnone := (GetCalcTxTimeLoop_eq_none rate self.timeTable).mpr hno
  unfold GetCalcTxTime at hd
  rw [hnone] at hd
  cases hd

theorem GetCalcTxTime_fails_iff_witness :
    GetCalcTxTime (sampleStats ℚ) 12000000 = none ∧
    GetCalcTxTime (sampleStats ℚ) 0 = none := by
  have h12 := (GetCalcTxTime_fails_iff (sampleStats ℚ) 12000000).1
  have h0 := (GetCalcTxTime_fails_iff (sampleStats ℚ) 0).1
  refine ⟨h12.mpr ?_, h0.mpr ?_⟩
  · rw [sampleStats_timeTable]
    simp
  · rw [sampleStats_timeTable]
    simp

/-! ## `RxCallback` -/

/-- C12 as stated fails when the sum leaves the range of `uint32_t`: with
4294967000 bytes counted, a packet of 1420 bytes leaves the count 1124, not
4294968420. -/
theorem RxCallback_wraps :
    (RxCallback { sampleStats ℚ with m_bytesTotal := 4294967000 }
        (frameTo 1 WifiMacType.WIFI_MAC_DATA)).m_bytesTotal = 1124 ∧
    (frameTo 1 WifiMacType.WIFI_MAC_DATA).GetSize = 1420 ∧
    (1124 : Nat) ≠ 4294967000 + 1420 := by
  refine ⟨?_, rfl, by decide⟩
  simp [RxCallback, wrapUInt32, frameTo, packetSize]

/-- C12, amended: after `RxCallback` the byte count is `b + n` reduced modulo
`2 ^ 32`, which is `b + n` whenever `b + n < 2 ^ 32`; every call counts, whatever
the packet; `totalEnergy`, `totalTime`, the two maps and every other member are
as before. -/
theorem RxCallback_counts (self : NodeStatistics F) (packet : Packet) :
    (RxCallback self packet).m_bytesTotal = (self.m_bytesTotal + packet.GetSize) % 4294967296 ∧
    (self.m_bytesTotal + packet.GetSize < 4294967296 →
      (RxCallback self packet).m_bytesTotal = self.m_bytesTotal + packet.GetSize) ∧
    (RxCallback self packet).totalEnergy = self.totalEnergy ∧
    (RxCallback self packet).totalTime = self.totalTime ∧
    (RxCallback self packet).currentPower = self.currentPower ∧
    (RxCallback self packet).currentRate = self.currentRate ∧
    (RxCallback self packet).timeTable = self.timeTable ∧
    (RxCallback self packet).m_output = self.m_output ∧
    (RxCallback self packet).m_output_power = self.m_output_power := by
  refine ⟨rfl, ?_, rfl, rfl, rfl, rfl, rfl, rfl, rfl⟩
  intro h
  exact Nat.mod_eq_of_lt h

theorem RxCallback_counts_witness :
    (RxCallback { sampleStats ℚ with m_bytesTotal := 1000 }
        (frameTo 1 WifiMacType.WIFI_MAC_DATA)).m_bytesTotal = 2420 := by
  have h := (RxCallback_counts { sampleStats ℚ with m_bytesTotal := 1000 }
    (frameTo 1 WifiMacType.WIFI_MAC_DATA)).2.1 (by decide)
  rw [h]
  rfl

end Handlers

/-! ## The constructor -/

section Constructor

variable {F : Type}

/-- The loop over the stations stores the power for the addresses of the list
and leaves the entries of all others. -/
theorem seedStations_currentPower (power : F) (dataRate : DataRate) (stas : List Mac48Address)
    (self : NodeStatistics F) (a : Mac48Address) :
    (seedStations power dataRate stas self).currentPower a =
      if a ∈ stas then some power else self.currentPower a := by
  induction stas generalizing self with
  | nil => simp [seedStations]
  | cons addr rest ih =>
    rw [seedStations, ih]
    by_cases hrest : a ∈ rest
    · simp [hrest]
    · by_cases ha : a = addr
      · subst ha
        simp [hrest, mapAssign]
      · simp [hrest, ha, mapAssign, Function.update_noteq ha]

/-- The loop over the stations stores the rate for the addresses of the list and
leaves the entries of all others. -/
theorem seedStations_currentRate (power : F) (dataRate : DataRate) (stas : List Mac48Address)
    (self : NodeStatistics F) (a : Mac48Address) :
    (seedStations power dataRate stas self).currentRate a =
      if a ∈ stas then some dataRate else self.currentRate a := by
  induction stas generalizing self with
  | nil => simp [seedStations]
  | cons addr rest ih =>
    rw [seedStations, ih]
    by_cases hrest : a ∈ rest
    · simp [hrest]
    · by_cases ha : a = addr
      · subst ha
        simp [hrest, mapAssign]
      · simp [hrest, ha, mapAssign, Function.update_noteq ha]

theorem seedStations_timeTable (power : F) (dataRate : DataRate) (stas : List Mac48Address)
    (self : NodeStatistics F) :
    (seedStations power dataRate stas self).timeTable = self.timeTable := by
  induction stas generalizing self with
  | nil => rfl
  | cons addr rest ih => rw [seedStations, ih]

theorem seedStations_series (power : F) (dataRate : DataRate) (stas : List Mac48Address)
    (self : NodeStatistics F) :
    (seedStations power dataRate stas self).m_output = self.m_output ∧
    (seedStations power dataRate stas self).m_output_power = self.m_output_power := by
  induction stas generalizing self with
  | nil => exact ⟨rfl, rfl⟩
  | cons addr rest ih =>
    rw [seedStations]
    exact ih _

end Constructor

section ConstructorState

variable {F : Type} [LinearOrderedField F]

/-- The power map the constructor leaves: `TxPowerEnd` for the stations, no
entry for any other address. -/
theorem ctor_currentPower (phy : WifiPhy F) (stas : List Mac48Address) (a : Mac48Address) :
    (NodeStatistics.ctor phy stas).currentPower a =
      if a ∈ stas then some phy.GetTxPowerEnd else none := by
  simp only [NodeStatistics.ctor]
  rw [seedStations_currentPower]
  rfl

/-- The rate map the constructor leaves: the rate of mode 0 for the broadcast
address and for the stations, no entry for any other address. -/
theorem ctor_currentRate (phy : WifiPhy F) (stas : List Mac48Address) (a : Mac48Address) :
    (NodeStatistics.ctor phy stas).currentRate a =
      if a = broadcastAddress ∨ a ∈ stas then some (modeRate phy 0) else none := by
  simp only [NodeStatistics.ctor]
  by_cases hb : a = broadcastAddress
  · subst hb
    simp [mapAssign, modeRate]
  · simp only [mapAssign, Function.update_noteq hb, hb, false_or]
    rw [seedStations_currentRate]
    rfl

theorem ctor_series (phy : WifiPhy F) (stas : List Mac48Address) :
    (NodeStatistics.ctor phy stas).m_output = [] ∧
    (NodeStatistics.ctor phy stas).m_output_power = [] := by
  simp only [NodeStatistics.ctor]
  exact seedStations_series _ _ stas (SetupPhy (defaultMembers phy) phy)

/-- C13: right after construction `m_bytesTotal`, `totalEnergy` and `totalTime`
are 0, every station address of the container has the rate of mode 0 and the
power `TxPowerEnd`, and the broadcast address has the same rate of mode 0. -/
theorem ctor_initial_state (phy : WifiPhy F) (stas : List Mac48Address) :
    (NodeStatistics.ctor phy stas).m_bytesTotal = 0 ∧
    (NodeStatistics.ctor phy stas).totalEnergy = 0 ∧
    (NodeStatistics.ctor phy stas).totalTime = 0 ∧
    (∀ addr, addr ∈ stas →
      (NodeStatistics.ctor phy stas).currentRate addr = some (modeRate phy 0) ∧
      (NodeStatistics.ctor phy stas).currentPower addr = some phy.GetTxPowerEnd) ∧
    (NodeStatistics.ctor phy stas).currentRate broadcastAddress = some (modeRate phy 0) := by
  refine ⟨rfl, rfl, rfl, ?_, ?_⟩
  · intro addr haddr
    rw [ctor_currentRate, ctor_currentPower]
    simp [haddr]
  · rw [ctor_currentRate]
    simp

theorem ctor_initial_state_witness :
    (NodeStatistics.ctor (samplePhy ℚ) [1, 2]).currentRate 2 = some 6000000 ∧
    (NodeStatistics.ctor (samplePhy ℚ) [1, 2]).currentPower 2 = some (-40) ∧
    (NodeStatistics.ctor (samplePhy ℚ) [1, 2]).currentRate broadcastAddress = some 6000000 := by
  obtain ⟨_, _, _, hsta, hbroadcast⟩ := ctor_initial_state (samplePhy ℚ) [1, 2]
  obtain ⟨hrate, hpower⟩ := hsta 2 (by simp)
  exact ⟨hrate, hpower, hbroadcast⟩

end ConstructorState

/-! ## The run of the sweep -/

section RunLemmas

variable {F : Type} [LinearOrderedField F]

theorem sweep_lengths (n : Nat) (self : NodeStatistics F) (node : Node F)
    (stepsSize stepsTime : Int) :
    (sweep n self node stepsSize stepsTime).1.m_output.length = self.m_output.length + n ∧
    (sweep n self node stepsSize stepsTime).1.m_output_power.length =
      self.m_output_power.length + n := by
  obtain ⟨_, ho, hp⟩ := sweep_trace n self node stepsSize stepsTime
  have h1 := congrArg List.length ho
  have h2 := congrArg List.length hp
  simp only [List.length_map, List.length_append, List.length_range] at h1 h2
  exact ⟨h1, h2⟩

/-- A run whose pending call comes before the stop `m` times in a row and then
after it executes `m` calls, which are those of `sweep m`, given fuel for more
than `m` calls. -/
theorem runSweep_eq (m fuel : Nat) (time : F) (early : Bool) (stop : F)
    (self : NodeStatistics F) (node : Node F) (stepsSize stepsTime : Int)
    (hfuel : m < fuel)
    (hbefore : ∀ j : Nat, j < m → time + (j : F) * ((stepsTime : Int) : F) < stop)
    (hafter : stop < time + (m : F) * ((stepsTime : Int) : F)) :
    runSweep fuel time early stop self node stepsSize stepsTime =
      some (m, sweep m self node stepsSize stepsTime) := by
  induction m generalizing fuel time early self node with
  | zero =>
    obtain ⟨f, rfl⟩ := Nat.exists_eq_succ_of_ne_zero (Nat.not_eq_zero_of_lt hfuel)
    have hlt : stop < time := by simpa using hafter
    have hcond : ¬ (time < stop ∨ (time = stop ∧ early = true)) := by
      rintro (h | ⟨h, _⟩)
      · exact absurd h (not_lt.mpr hlt.le)
      · exact absurd h (ne_of_gt hlt)
    simp only [runSweep, hcond, if_false]
    rfl
  | succ m ih =>
    obtain ⟨f, rfl⟩ := Nat.exists_eq_succ_of_ne_zero (Nat.not_eq_zero_of_lt hfuel)
    have h0 : time < stop := by simpa using hbefore 0 (Nat.succ_pos m)
    have hcond : time < stop ∨ (time = stop ∧ early = true) := Or.inl h0
    simp only [runSweep, hcond, if_true, AdvancePosition_next]
    rw [ih f (time + ((stepsTime : Int) : F)) false _ _ (Nat.lt_of_succ_lt_succ hfuel)]
    · rfl
    · intro j hj
      have h := hbefore (j + 1) (Nat.succ_lt_succ hj)
      push_cast at h
      linarith
    · push_cast at hafter
      linarith

theorem toInt32_eq_self (n : Nat) (h : n < 2147483648) : toInt32 n = (n : Int) := by
  unfold toInt32
  exact wrapInt32_eq_self _ (by omega) (by omega)

/-- With `stepsTime >= 1` and `(steps + 1) * stepsTime` within 32 bits, the run set
up by `main` reaches the stop after `steps` calls of `AdvancePosition`, which are
those of `sweep steps` from the constructed object and the station at
`(sta1_x, sta1_y, 0)`, the initialisers converted as `main` converts them. -/
theorem mainSweep_eq (s : Settings) (phy : WifiPhy F) (stas : List Mac48Address) (fuel : Nat)
    (htime : 1 ≤ s.stepsTime) (hfit : (s.steps + 1) * s.stepsTime < 4294967296)
    (hfuel : s.steps < fuel) :
    mainSweep fuel s phy stas =
      some (s.steps, sweep s.steps (NodeStatistics.ctor phy stas)
        { mobility := { x := ((wrapInt32 (truncate s.sta1_x) : Int) : F)
                        y := ((wrapInt32 (truncate s.sta1_y) : Int) : F)
                        z := 0 } }
        (toInt32 (toUInt32 s.stepsSize)) (toInt32 s.stepsTime)) := by
  have hT : s.stepsTime < 4294967296 := by
    calc s.stepsTime = 1 * s.stepsTime := (Nat.one_mul _).symm
      _ ≤ (s.steps + 1) * s.stepsTime := Nat.mul_le_mul_right _ (Nat.succ_pos _)
      _ < 4294967296 := hfit
  have hS : s.steps < 4294967296 := by
    calc s.steps < s.steps + 1 := Nat.lt_succ_self _
      _ = (s.steps + 1) * 1 := (Nat.mul_one _).symm
      _ ≤ (s.steps + 1) * s.stepsTime := Nat.mul_le_mul_left _ htime
      _ < 4294967296 := hfit
  have hwT : wrapUInt32 s.stepsTime = s.stepsTime := Nat.mod_eq_of_lt hT
  have hwS : wrapUInt32 s.steps = s.steps := Nat.mod_eq_of_lt hS
  have hwP : wrapUInt32 ((s.steps + 1) * s.stepsTime) = (s.steps + 1) * s.stepsTime :=
    Nat.mod_eq_of_lt hfit
  have hTF : (1 : F) ≤ (s.stepsTime : F) := by exact_mod_cast htime
  simp only [mainSweep, hwT, hwS, hwP]
  apply runSweep_eq _ _ _ _ _ _ _ _ _ hfuel
  · intro j hj
    have h2T : 2 * s.stepsTime ≤ (s.steps + 1) * s.stepsTime :=
      Nat.mul_le_mul_right _ (by omega)
    rw [toInt32_eq_self _ (by omega)]
    have hle : (j + 1) * s.stepsTime ≤ s.steps * s.stepsTime :=
      Nat.mul_le_mul_right _ hj
    have hleF : (((j + 1) * s.stepsTime : Nat) : F) ≤ ((s.steps * s.stepsTime : Nat) : F) := by
      exact_mod_cast hle
    push_cast at hleF ⊢
    linarith
  · rcases Nat.eq_zero_or_pos s.steps with h0 | hpos
    · rw [h0]
      push_cast
      linarith
    · have h2T : 2 * s.stepsTime ≤ (s.steps + 1) * s.stepsTime :=
        Nat.mul_le_mul_right _ (by omega)
      rw [toInt32_eq_self _ (by omega)]
      push_cast
      linarith

/-- The four handlers leave the two series as they are: none of them adds a
point, whatever the traffic. -/
theorem handlers_keep_series (pow : F → F → F) (self : NodeStatistics F) (packet : Packet)
    (oldPower newPower : F) (oldRate newRate : DataRate) (dest : Mac48Address) :
    (∀ after, PhyCallback pow self packet = some after →
      after.m_output = self.m_output ∧ after.m_output_power = self.m_output_power) ∧
    (RxCallback self packet).m_output = self.m_output ∧
    (RxCallback self packet).m_output_power = self.m_output_power ∧
    (PowerCallback self oldPower newPower dest).m_output = self.m_output ∧
    (PowerCallback self oldPower newPower dest).m_output_power = self.m_output_power ∧
    (RateCallback self oldRate newRate dest).m_output = self.m_output ∧
    (RateCallback self oldRate newRate dest).m_output_power = self.m_output_power := by
  refine ⟨?_, rfl, rfl, rfl, rfl, rfl, rfl⟩
  intro after hcall
  by_cases hdata : packet.PeekHeader.GetType = WifiMacType.WIFI_MAC_DATA
  · rw [PhyCallback_data pow self packet hdata] at hcall
    obtain ⟨a, _, hafter⟩ := Option.map_eq_some'.mp hcall
    rw [← hafter]
    exact ⟨rfl, rfl⟩
  · rw [PhyCallback_other pow self packet hdata] at hcall
    cases hcall
    exact ⟨rfl, rfl⟩

/-- C14: with `steps` and `stepsTime >= 1` such that `(steps + 1) * stepsTime` fits
32 bits, the run set up by `main` (first call at `0.5 + stepsTime` seconds, each
call scheduling the next `stepsTime` seconds later, stop at
`(steps + 1) * stepsTime` seconds) reaches the stop, given fuel for more than
`steps` calls, after exactly `steps` calls of `AdvancePosition`, and each series
then holds exactly `steps` points; for `steps = 0` no call is executed and the
series are empty. -/
theorem mainSweep_ticks (s : Settings) (phy : WifiPhy F) (stas : List Mac48Address) (fuel : Nat)
    (htime : 1 ≤ s.stepsTime) (hfit : (s.steps + 1) * s.stepsTime < 4294967296)
    (hfuel : s.steps < fuel) :
    ∃ stats node,
      mainSweep fuel s phy stas = some (s.steps, stats, node) ∧
      stats.m_output.length = s.steps ∧
      stats.m_output_power.length = s.steps := by
  refine ⟨_, _, mainSweep_eq s phy stas fuel htime hfit hfuel, ?_, ?_⟩
  · rw [(sweep_lengths _ _ _ _ _).1, (ctor_series phy stas).1]
    simp
  · rw [(sweep_lengths _ _ _ _ _).2, (ctor_series phy stas).2]
    simp

theorem mainSweep_ticks_witness :
    ∃ stats node,
      mainSweep 2 defaultSettings (samplePhy ℚ) [1] = some (1, stats, node) ∧
      stats.m_output.length = 1 ∧ stats.m_output_power.length = 1 :=
  mainSweep_ticks defaultSettings (samplePhy ℚ) [1] 2 (by decide) (by decide) (by decide)

/-! ## The points of the header -/

theorem truncate_of_lt_one (x : ℚ) (h0 : 0 ≤ x) (h1 : x < 1) : truncate x = 0 := by
  unfold truncate
  rw [if_pos h0, Int.floor_eq_iff]
  exact ⟨by simpa using h0, by simpa using h1⟩

theorem truncate_intCast (n : Int) : truncate (n : ℚ) = n := by
  unfold truncate
  split <;> simp

theorem toUInt32_of_lt_one (x : ℚ) (h0 : 0 ≤ x) (h1 : x < 1) : toUInt32 x = 0 := by
  unfold toUInt32
  rw [truncate_of_lt_one x h0 h1]
  decide

theorem sweep_keeps_y_z (n : Nat) (self : NodeStatistics F) (node : Node F)
    (stepsSize stepsTime : Int) :
    (sweep n self node stepsSize stepsTime).2.mobility.y = node.mobility.y ∧
    (sweep n self node stepsSize stepsTime).2.mobility.z = node.mobility.z := by
  induction n generalizing self node with
  | zero => exact ⟨rfl, rfl⟩
  | succ n ih =>
    rw [sweep_succ]
    exact ih _ _

/-- C15, the first example of the header run by the code: with `sta_x = 1.0`,
`sta_y = 2.0`, `steps = 4`, `stepSize = 0.5` and `stepTime = 1`, the step is
stored in a `uint32_t` as 0, the four points are all recorded at x = 1, and the
station ends at `(1, 2)`; the header gives `(1.5, 2.5)`, `(2.0, 3.0)`,
`(2.5, 3.5)`, `(3.0, 4.0)`. -/
theorem header_example_points :
    toUInt32 (1 / 2) = 0 ∧
    ∃ stats node,
      mainSweep 5 { sta1_x := 1, sta1_y := 2, steps := 4, stepsSize := 1 / 2, stepsTime := 1 }
        (samplePhy ℚ) [1] = some (4, stats, node) ∧
      stats.m_output.map Prod.fst = [1, 1, 1, 1] ∧
      stats.m_output_power.map Prod.fst = [1, 1, 1, 1] ∧
      node.mobility.x = 1 ∧ node.mobility.y = 2 := by
  have hstep : toUInt32 (1 / 2) = 0 := toUInt32_of_lt_one _ (by norm_num) (by norm_num)
  have hx : truncate (1 : ℚ) = 1 := by simpa using truncate_intCast 1
  have hy : truncate (2 : ℚ) = 2 := by simpa using truncate_intCast 2
  have hrun := mainSweep_eq (F := ℚ)
    { sta1_x := 1, sta1_y := 2, steps := 4, stepsSize := 1 / 2, stepsTime := 1 }
    (samplePhy ℚ) [1] 5 (by decide) (by decide) (by decide)
  simp only [hstep, hx, hy] at hrun
  refine ⟨hstep,
    (sweep 4 (NodeStatistics.ctor (samplePhy ℚ) [1])
      { mobility := { x := ((wrapInt32 1 : Int) : ℚ), y := ((wrapInt32 2 : Int) : ℚ), z := 0 } }
      (toInt32 0) (toInt32 1)).1,
    (sweep 4 (NodeStatistics.ctor (samplePhy ℚ) [1])
      { mobility := { x := ((wrapInt32 1 : Int) : ℚ), y := ((wrapInt32 2 : Int) : ℚ), z := 0 } }
      (toInt32 0) (toInt32 1)).2, hrun, ?_, ?_, ?_, ?_⟩
  · rw [(sweep_trace _ _ _ _ _).2.1, (ctor_series _ _).1]
    simp [toInt32, wrapInt32, List.range_succ]
  · rw [(sweep_trace _ _ _ _ _).2.2, (ctor_series _ _).2]
    simp [toInt32, wrapInt32, List.range_succ]
  · rw [(sweep_trace _ _ _ _ _).1]
    simp [toInt32, wrapInt32]
  · rw [(sweep_keeps_y_z _ _ _ _ _).1]
    simp [wrapInt32]

/-- The second example of the header run by the code: with `steps = 1` and
`stepSize = 0.1` the single point is recorded at x = 1 and the station stays at
`(1, 2)`; the header gives `(1.1, 2.1)`. -/
theorem header_example_single_point :
    toUInt32 (1 / 10) = 0 ∧
    ∃ stats node,
      mainSweep 2 { sta1_x := 1, sta1_y := 2, steps := 1, stepsSize := 1 / 10, stepsTime := 1 }
        (samplePhy ℚ) [1] = some (1, stats, node) ∧
      stats.m_output.map Prod.fst = [1] ∧
      node.mobility.x = 1 ∧ node.mobility.y = 2 := by
  have hstep : toUInt32 (1 / 10) = 0 := toUInt32_of_lt_one _ (by norm_num) (by norm_num)
  have hx : truncate (1 : ℚ) = 1 := by simpa using truncate_intCast 1
  have hy : truncate (2 : ℚ) = 2 := by simpa using truncate_intCast 2
  have hrun := mainSweep_eq (F := ℚ)
    { sta1_x := 1, sta1_y := 2, steps := 1, stepsSize := 1 / 10, stepsTime := 1 }
    (samplePhy ℚ) [1] 2 (by decide) (by decide) (by decide)
  simp only [hstep, hx, hy] at hrun
  refine ⟨hstep,
    (sweep 1 (NodeStatistics.ctor (samplePhy ℚ) [1])
      { mobility := { x := ((wrapInt32 1 : Int) : ℚ), y := ((wrapInt32 2 : Int) : ℚ), z := 0 } }
      (toInt32 0) (toInt32 1)).1,
    (sweep 1 (NodeStatistics.ctor (samplePhy ℚ) [1])
      { mobility := { x := ((wrapInt32 1 : Int) : ℚ), y := ((wrapInt32 2 : Int) : ℚ), z := 0 } }
      (toInt32 0) (toInt32 1)).2, hrun, ?_, ?_, ?_⟩
  · rw [(sweep_trace _ _ _ _ _).2.1, (ctor_series _ _).1]
    simp [toInt32, wrapInt32, List.range_succ]
  · rw [(sweep_trace _ _ _ _ _).1]
    simp [toInt32, wrapInt32]
  · rw [(sweep_keeps_y_z _ _ _ _ _).1]
    simp [wrapInt32]

/-! ## The divisions and the conversion -/

/-- C16 as stated fails at `stepsTime = 0`: the `int` product `1000000 * 0` and
the divisor `stepsTime` are both 0, and neither point of the tick has a number
as its value. -/
theorem AdvancePosition_zero_divisors :
    wrapInt32 (1000000 * 0) = 0 ∧
    (AdvancePosition { sampleStats ℚ with m_bytesTotal := 1420, totalEnergy := 1 }
        (sampleNode ℚ 0) 1 0).stats.m_output = [(0, none)] ∧
    (AdvancePosition { sampleStats ℚ with m_bytesTotal := 1420, totalEnergy := 1 }
        (sampleNode ℚ 0) 1 0).stats.m_output_power = [(0, none)] := by
  have h : wrapInt32 (1000000 * 0) = 0 := by decide
  refine ⟨h, ?_, ?_⟩
  · rw [AdvancePosition_m_output, h]
    simp [ddiv, sampleNode, sampleStats_m_output]
  · rw [AdvancePosition_m_output_power]
    simp [ddiv, sampleNode, sampleStats_m_output_power]

/-- C16, amended: for every `int` value `stepsTime` other than 0 and every object,
the divisor `stepsTime` of `AdvancePosition` is not 0 and the power value of the
tick is the quotient `totalEnergy / stepsTime`; when moreover
`1000000 * stepsTime` fits an `int`, this divisor is not 0 either and the
throughput value is the quotient `(m_bytesTotal * 8) / (1000000 * stepsTime)`.
The conversion of `PhyCallback` stops no call: whatever `pow` returns and for
every stored power `P`, the call for a data frame whose rate is in the table
returns, with `pow (10, P / 10)` times the airtime added to `totalEnergy`. -/
theorem numeric_computations_defined (pow : F → F → F) (self : NodeStatistics F)
    (node : Node F) (stepsSize stepsTime : Int) :
    (stepsTime ≠ 0 →
      ((stepsTime : Int) : F) ≠ 0 ∧
      (AdvancePosition self node stepsSize stepsTime).stats.m_output_power =
        self.m_output_power ++
          [(node.mobility.x, some (self.totalEnergy / (stepsTime : F)))]) ∧
    (stepsTime ≠ 0 →
      -2147483648 ≤ 1000000 * stepsTime → 1000000 * stepsTime < 2147483648 →
      wrapInt32 (1000000 * stepsTime) ≠ 0 ∧
      (AdvancePosition self node stepsSize stepsTime).stats.m_output =
        self.m_output ++
          [(node.mobility.x,
            some ((self.m_bytesTotal : F) * 8 / (1000000 * (stepsTime : F))))]) ∧
    (∀ (packet : Packet) (P : F) (rate : DataRate) (a : F),
      packet.PeekHeader.GetType = WifiMacType.WIFI_MAC_DATA →
      self.currentPower packet.PeekHeader.GetAddr1 = some P →
      self.currentRate packet.PeekHeader.GetAddr1 = some rate →
      GetCalcTxTime self rate = some a →
      ∃ after : NodeStatistics F,
        PhyCallback pow self packet = some after ∧
        after.totalEnergy = self.totalEnergy + pow 10 (P / 10) * a) := by
  refine ⟨?_, ?_, ?_⟩
  · intro hne
    have hcast : ((stepsTime : Int) : F) ≠ 0 := by exact_mod_cast hne
    refine ⟨hcast, ?_⟩
    rw [AdvancePosition_m_output_power, ddiv_eq_some _ _ hcast]
  · intro hne hlo hhi
    have hwrap : wrapInt32 (1000000 * stepsTime) = 1000000 * stepsTime :=
      wrapInt32_eq_self _ hlo hhi
    have hprod : (1000000 * stepsTime : Int) ≠ 0 := by omega
    have hprodcast : ((1000000 * stepsTime : Int) : F) ≠ 0 := by exact_mod_cast hprod
    refine ⟨by rw [hwrap]; exact hprod, ?_⟩
    rw [AdvancePosition_m_output, hwrap, ddiv_eq_some _ _ hprodcast]
    push_cast
    rfl
  · intro packet P rate a hdata hP hr ha
    exact ⟨_, PhyCallback_data_seeded pow self packet P rate a hdata hP hr ha, rfl⟩

theorem numeric_computations_defined_witness :
    (AdvancePosition { sampleStats ℝ with m_bytesTotal := 1000000, totalEnergy := 3 }
        (sampleNode ℝ 0) 1 2).stats.m_output = [(0, some 4)] ∧
    (AdvancePosition { sampleStats ℝ with m_bytesTotal := 1000000, totalEnergy := 3 }
        (sampleNode ℝ 0) 1 2148).stats.m_output_power = [(0, some (3 / 2148))] ∧
    ∃ after : NodeStatistics ℝ,
      PhyCallback (fun b e : ℝ => b ^ e)
        { sampleStats ℝ with m_bytesTotal := 1000000, totalEnergy := 3 }
        (frameTo 1 WifiMacType.WIFI_MAC_DATA) = some after := by
  obtain ⟨_, hout, hcall⟩ := numeric_computations_defined (fun b e : ℝ => b ^ e)
    { sampleStats ℝ with m_bytesTotal := 1000000, totalEnergy := 3 } (sampleNode ℝ 0) 1 2
  obtain ⟨hpow, _, _⟩ := numeric_computations_defined (fun b e : ℝ => b ^ e)
    { sampleStats ℝ with m_bytesTotal := 1000000, totalEnergy := 3 } (sampleNode ℝ 0) 1 2148
  obtain ⟨after, hafter, _⟩ := hcall (frameTo 1 WifiMacType.WIFI_MAC_DATA) (-40) 6000000
    (1853 / 100000) rfl sampleStats_currentPower_station sampleStats_currentRate_station
    sampleStats_airtime
  refine ⟨?_, ?_, after, hafter⟩
  · rw [(hout (by decide) (by decide) (by decide)).2]
    simp [sampleStats_m_output, sampleNode]
    norm_num
  · rw [(hpow (by decide)).2]
    simp [sampleStats_m_output_power, sampleNode]

end RunLemmas

/-! ## The sweep of the default settings -/

section DefaultSweep

variable {F : Type} [LinearOrderedField F]

theorem truncate_default_sta1_x : truncate defaultSettings.sta1_x = -1 := by
  have hneg : ¬ (0 : ℚ) ≤ -14 / 10 := by norm_num
  simp only [defaultSettings, truncate, hneg, if_false]
  rw [Int.ceil_eq_iff]
  constructor <;> norm_num

theorem toUInt32_default_stepsSize : toUInt32 defaultSettings.stepsSize = 0 :=
  toUInt32_of_lt_one _ (by norm_num [defaultSettings]) (by norm_num [defaultSettings])

/-- A sweep with step 0: the station stays where it is, and every point added to
either series has the x of the station as its abscissa. -/
theorem sweep_zero_step (n : Nat) (self : NodeStatistics F) (node : Node F) (stepsTime : Int) :
    (sweep n self node 0 stepsTime).2.mobility.x = node.mobility.x ∧
    (sweep n self node 0 stepsTime).1.m_output.map Prod.fst =
      self.m_output.map Prod.fst ++ List.replicate n node.mobility.x ∧
    (sweep n self node 0 stepsTime).1.m_output_power.map Prod.fst =
      self.m_output_power.map Prod.fst ++ List.replicate n node.mobility.x := by
  obtain ⟨hx, ho, hp⟩ := sweep_trace n self node 0 stepsTime
  have hconst : (List.range n).map
      (fun k : Nat => node.mobility.x + (k : F) * (((0 : Int) : Int) : F)) =
      List.replicate n node.mobility.x := by
    simp [List.eq_replicate_iff]
  rw [hconst] at ho hp
  refine ⟨?_, ho, hp⟩
  rw [hx]
  simp

/-- C21: with the initialisers of the source, -1.4 for `sta1_x` in an `int` and 0.1
for `stepsSize` in a `uint32_t`, the sweep starts at x = -1 with step 0. For
every number of steps the run set up by `main` (given fuel for more than `steps`
calls) ends after `steps` calls of `AdvancePosition` with the station still at
x = -1, and every point of either series has the abscissa -1. -/
theorem default_station_never_moves (steps fuel : Nat) (phy : WifiPhy F)
    (stas : List Mac48Address) (hfit : steps + 1 < 4294967296) (hfuel : steps < fuel) :
    wrapInt32 (truncate defaultSettings.sta1_x) = -1 ∧
    toInt32 (toUInt32 defaultSettings.stepsSize) = 0 ∧
    ∃ stats node,
      mainSweep fuel { defaultSettings with steps := steps } phy stas =
        some (steps, stats, node) ∧
      node.mobility.x = -1 ∧
      (∀ p ∈ stats.m_output, p.1 = -1) ∧
      (∀ p ∈ stats.m_output_power, p.1 = -1) ∧
      stats.m_output.length = steps ∧
      stats.m_output_power.length = steps := by
  have hx : wrapInt32 (truncate defaultSettings.sta1_x) = -1 := by
    rw [truncate_default_sta1_x]
    decide
  have hstep : toInt32 (toUInt32 defaultSettings.stepsSize) = 0 := by
    rw [toUInt32_default_stepsSize]
    decide
  have htime : 1 ≤ ({ defaultSettings with steps := steps } : Settings).stepsTime :=
    Nat.le_refl 1
  have hprod : (({ defaultSettings with steps := steps } : Settings).steps + 1) *
      ({ defaultSettings with steps := steps } : Settings).stepsTime < 4294967296 := by
    show (steps + 1) * 1 < 4294967296
    omega
  have hrun := mainSweep_eq (F := F) { defaultSettings with steps := steps } phy stas fuel
    htime hprod hfuel
  have hsx : ({ defaultSettings with steps := steps } : Settings).sta1_x =
      defaultSettings.sta1_x := rfl
  have hss : ({ defaultSettings with steps := steps } : Settings).stepsSize =
      defaultSettings.stepsSize := rfl
  have hst : ({ defaultSettings with steps := steps } : Settings).steps = steps := rfl
  simp only [hsx, hss, hst, hx, hstep] at hrun
  obtain ⟨hpos, hout, hpow⟩ := sweep_zero_step steps (NodeStatistics.ctor phy stas)
    { mobility := { x := (((-1 : Int) : Int) : F)
                    y := ((wrapInt32 (truncate
                      ({ defaultSettings with steps := steps } : Settings).sta1_y) : Int) : F)
                    z := 0 } }
    (toInt32 ({ defaultSettings with steps := steps } : Settings).stepsTime)
  obtain ⟨hlen1, hlen2⟩ := sweep_lengths steps (NodeStatistics.ctor phy stas)
    { mobility := { x := (((-1 : Int) : Int) : F)
                    y := ((wrapInt32 (truncate
                      ({ defaultSettings with steps := steps } : Settings).sta1_y) : Int) : F)
                    z := 0 } }
    0 (toInt32 ({ defaultSettings with steps := steps } : Settings).stepsTime)
  rw [(ctor_series phy stas).1, List.map_nil, List.nil_append] at hout
  rw [(ctor_series phy stas).2, List.map_nil, List.nil_append] at hpow
  rw [(ctor_series phy stas).1] at hlen1
  rw [(ctor_series phy stas).2] at hlen2
  refine ⟨hx, hstep, _, _, hrun, ?_, ?_, ?_, ?_, ?_⟩
  · rw [hpos]
    simp
  · intro p hp
    have hmem : p.1 ∈ List.replicate steps ((((-1 : Int) : Int) : F)) := by
      rw [← hout]
      exact List.mem_map_of_mem Prod.fst hp
    rw [(List.mem_replicate.mp hmem).2]
    simp
  · intro p hp
    have hmem : p.1 ∈ List.replicate steps ((((-1 : Int) : Int) : F)) := by
      rw [← hpow]
      exact List.mem_map_of_mem Prod.fst hp
    rw [(List.mem_replicate.mp hmem).2]
    simp
  · simpa using hlen1
  · simpa using hlen2

theorem default_station_never_moves_witness :
    ∃ stats node,
      mainSweep 2 defaultSettings (samplePhy ℚ) [1] = some (1, stats, node) ∧
      node.mobility.x = -1 ∧
      stats.m_output.map Prod.fst = [-1] := by
  obtain ⟨_, _, stats, node, hrun, hx, hout, _, hlen, _⟩ :=
    default_station_never_moves (F := ℚ) 1 2 (samplePhy ℚ) [1] (by decide) (by decide)
  refine ⟨stats, node, hrun, hx, ?_⟩
  match hs : stats.m_output, hlen, hout with
  | [p], _, hall =>
    have := hall p (by simp)
    simp [this]

end DefaultSweep

/-! ## A broadcast frame right after construction -/

section BroadcastFrame

variable {F : Type} [LinearOrderedField F]

/-- The table the constructor leaves: the entries of the modes, in their order. -/
theorem ctor_timeTable (phy : WifiPhy F) (stas : List Mac48Address) :
    (NodeStatistics.ctor phy stas).timeTable =
      (List.range phy.GetNModes).map (fun k => (modeDuration phy k, modeRate phy k)) := by
  simp only [NodeStatistics.ctor]
  rw [seedStations_timeTable, SetupPhy_timeTable]
  rfl

/-- With at least one mode, the constructed object finds the duration of mode 0
for the rate of mode 0. -/
theorem ctor_default_airtime (phy : WifiPhy F) (stas : List Mac48Address)
    (hmodes : 0 < phy.GetNModes) :
    GetCalcTxTime (NodeStatistics.ctor phy stas) (modeRate phy 0) =
      some (modeDuration phy 0) := by
  unfold GetCalcTxTime
  rw [ctor_timeTable]
  obtain ⟨n, hn⟩ := Nat.exists_eq_succ_of_ne_zero (Nat.not_eq_zero_of_lt hmodes)
  rw [hn, List.range_succ_eq_map, List.map_cons]
  simp [GetCalcTxTimeLoop]

/-- C22: right after construction, for a physical layer with at least one mode and
any `TxPowerEnd`, and stations none of which has the broadcast address, the
broadcast address has the rate of mode 0 and no power. A data frame for it makes
`PhyCallback` return with the power read as 0, the linear factor `10 ^ (0 / 10)`
equal to 1, `totalEnergy` grown from 0 by exactly the airtime of the rate of mode
0, and the entry 0 added to the power map for the broadcast address. -/
theorem broadcast_frame_after_construction (phy : WifiPhy ℝ) (stas : List Mac48Address)
    (hmodes : 0 < phy.GetNModes) (hsta : broadcastAddress ∉ stas) :
    (NodeStatistics.ctor phy stas).currentRate broadcastAddress = some (modeRate phy 0) ∧
    (NodeStatistics.ctor phy stas).currentPower broadcastAddress = none ∧
    (10 : ℝ) ^ ((0 : ℝ) / 10) = 1 ∧
    ∃ after : NodeStatistics ℝ,
      PhyCallback (fun b e : ℝ => b ^ e) (NodeStatistics.ctor phy stas)
        (frameTo broadcastAddress WifiMacType.WIFI_MAC_DATA) = some after ∧
      after.totalEnergy =
        (NodeStatistics.ctor phy stas).totalEnergy +
          (10 : ℝ) ^ ((0 : ℝ) / 10) * modeDuration phy 0 ∧
      after.totalEnergy = modeDuration phy 0 ∧
      after.totalTime = modeDuration phy 0 ∧
      after.currentPower broadcastAddress = some 0 := by
  have hrate : (NodeStatistics.ctor phy stas).currentRate broadcastAddress =
      some (modeRate phy 0) := by
    rw [ctor_currentRate]
    simp
  have hpower : (NodeStatistics.ctor phy stas).currentPower broadcastAddress = none := by
    rw [ctor_currentPower]
    simp [hsta]
  have hone : (10 : ℝ) ^ ((0 : ℝ) / 10) = 1 := by
    rw [zero_div, Real.rpow_zero]
  have hair := ctor_default_airtime phy stas hmodes
  unfold GetCalcTxTime at hair
  have hcall : PhyCallback (fun b e : ℝ => b ^ e) (NodeStatistics.ctor phy stas)
      (frameTo broadcastAddress WifiMacType.WIFI_MAC_DATA) =
      some (afterDataFrame (fun b e : ℝ => b ^ e) (NodeStatistics.ctor phy stas)
        broadcastAddress (modeDuration phy 0)) := by
    rw [PhyCallback_data _ _ _ rfl]
    have hrate2 : (NodeStatistics.ctor phy stas).currentRate
        (frameTo broadcastAddress WifiMacType.WIFI_MAC_DATA).PeekHeader.GetAddr1 =
        some (modeRate phy 0) := hrate
    rw [mapIndex_of_some _ _ _ _ hrate2]
    simp only [hair, Option.map_some']
    rfl
  have hread :
      (mapIndex (NodeStatistics.ctor phy stas).currentPower broadcastAddress 0).1 = 0 := by
    rw [mapIndex_of_none _ _ _ hpower]
  have henergy : (afterDataFrame (fun b e : ℝ => b ^ e) (NodeStatistics.ctor phy stas)
      broadcastAddress (modeDuration phy 0)).totalEnergy =
      (NodeStatistics.ctor phy stas).totalEnergy +
        (10 : ℝ) ^ ((0 : ℝ) / 10) * modeDuration phy 0 := by
    simp only [afterDataFrame, hread]
  refine ⟨hrate, hpower, hone, _, hcall, henergy, ?_, ?_, ?_⟩
  · rw [henergy, hone]
    have hzero : (NodeStatistics.ctor phy stas).totalEnergy = 0 := rfl
    rw [hzero]
    ring
  · have hzero : (NodeStatistics.ctor phy stas).totalTime = 0 := rfl
    simp only [afterDataFrame, hzero]
    ring
  · have h := mapIndex_snd_self (NodeStatistics.ctor phy stas).currentPower broadcastAddress 0
    rw [hread] at h
    exact h

theorem broadcast_frame_after_construction_witness :
    ∃ after : NodeStatistics ℝ,
      PhyCallback (fun b e : ℝ => b ^ e) (NodeStatistics.ctor (samplePhy ℝ) [1])
        (frameTo broadcastAddress WifiMacType.WIFI_MAC_DATA) = some after ∧
      after.totalEnergy = 1853 / 100000 ∧
      after.currentPower broadcastAddress = some 0 := by
  obtain ⟨_, _, _, after, hcall, _, henergy, _, hpower⟩ :=
    broadcast_frame_after_construction (samplePhy ℝ) [1] (by decide)
      (by simp [broadcastAddress])
  refine ⟨after, hcall, ?_, hpower⟩
  rw [henergy]
  simp [modeDuration, samplePhy]

end BroadcastFrame

end PowerAdaptationDistance

namespace WifiSimpleInterference

section TrafficLemmas

variable {F : Type} [LinearOrderedField F]

/-- The socket calls of `n` packets from time `t0` on: `Send` at `t0 + k * T`
for `k < n`. -/
theorem range_map_send_shift (n : Nat) (t0 T : F) (s : Nat) :
    (t0, SocketCall.Send s) ::
        (List.range n).map (fun k : Nat => (t0 + T + (k : F) * T, SocketCall.Send s)) =
      (List.range (n + 1)).map (fun k : Nat => (t0 + (k : F) * T, SocketCall.Send s)) := by
  rw [List.range_succ_eq_map, List.map_cons, List.map_map]
  congr 1
  · simp
  · apply List.map_congr_left
    intro k _
    simp only [Function.comp_apply, Nat.succ_eq_add_one]
    push_cast
    congr 1
    ring

/-- C20: for every count `n`, size `s`, interval `T` and start time `t0`, the run
started by `GenerateTraffic (socket, s, n, T)` ends, given fuel for more than `n`
calls, after `n + 1` calls: `n` calls `Send` of a packet of size `s`, the `k`-th
at `t0 + k * T`, then one `Close` at `t0 + n * T`. The call with count 0 schedules
nothing, and each other call schedules the count less one. -/
theorem GenerateTraffic_sends (n s fuel : Nat) (T t0 : F) (hfuel : n < fuel) :
    runTraffic fuel t0 s n T =
        some ((List.range n).map (fun k : Nat => (t0 + (k : F) * T, SocketCall.Send s)) ++
          [(t0 + (n : F) * T, SocketCall.Close)]) ∧
    (GenerateTraffic s 0 T).2 = none ∧
    (∀ m : Nat, (GenerateTraffic s (m + 1) T).2 =
      some { delay := T, pktSize := s, pktCount := m, pktInterval := T }) := by
  refine ⟨?_, rfl, fun m => by simp [GenerateTraffic]⟩
  induction n generalizing fuel t0 with
  | zero =>
    obtain ⟨f, rfl⟩ := Nat.exists_eq_succ_of_ne_zero (Nat.not_eq_zero_of_lt hfuel)
    simp [runTraffic, GenerateTraffic]
  | succ n ih =>
    obtain ⟨f, rfl⟩ := Nat.exists_eq_succ_of_ne_zero (Nat.not_eq_zero_of_lt hfuel)
    have hstep : runTraffic (f + 1) t0 s (n + 1) T =
        (runTraffic f (t0 + T) s n T).map (fun calls => (t0, SocketCall.Send s) :: calls) := by
      simp [runTraffic, GenerateTraffic]
    have hlast : t0 + T + (n : F) * T = t0 + ((n + 1 : Nat) : F) * T := by
      push_cast
      ring
    rw [hstep, ih f (t0 + T) (Nat.lt_of_succ_lt_succ hfuel), Option.map_some',
      ← List.cons_append, range_map_send_shift, hlast]

theorem GenerateTraffic_sends_witness :
    runTraffic 3 (10 : ℚ) 1000 2 1 =
      some [(10, SocketCall.Send 1000), (11, SocketCall.Send 1000), (12, SocketCall.Close)] := by
  rw [(GenerateTraffic_sends 2 1000 3 (1 : ℚ) 10 (by decide)).1]
  simp [List.range_succ]
  norm_num

end TrafficLemmas

end WifiSimpleInterference

namespace HeWifiNetwork

section BodyLemmas

variable {F : Type} [LinearOrderedField F]

/-- The body as one cascade of tests. -/
theorem body_eq (a : Arguments F) (mcs channelWidth gi : Int) (index : Nat) (previous : F)
    (st : Sweep F) :
    body a mcs channelWidth gi index previous st =
      if a.frequency = 5 ∨ a.frequency = 24 / 10 then
        if (mcs = 0 ∧ channelWidth = 20 ∧ gi = 3200) ∧
            a.throughput mcs channelWidth gi < a.minExpectedThroughput then
          Except.error (Ending.exit 1
            (st.rows ++ [(mcs, channelWidth, gi, a.throughput mcs channelWidth gi)]))
        else if (mcs = 11 ∧ channelWidth = 160 ∧ gi = 800) ∧
            (a.maxExpectedThroughput > 0 ∧
              a.throughput mcs channelWidth gi > a.maxExpectedThroughput) then
          Except.error (Ending.exit 1
            (st.rows ++ [(mcs, channelWidth, gi, a.throughput mcs channelWidth gi)]))
        else if previous < a.throughput mcs channelWidth gi then
          match st.prevThroughput[index]? with
          | none => Except.error Ending.outOfBounds
          | some old =>
            if old < a.throughput mcs channelWidth gi then
              Except.ok ((index + 1) % 256, a.throughput mcs channelWidth gi,
                { prevThroughput := st.prevThroughput.set index (a.throughput mcs channelWidth gi)
                  rows := st.rows ++ [(mcs, channelWidth, gi, a.throughput mcs channelWidth gi)] })
            else
              Except.error (Ending.exit 1
                (st.rows ++ [(mcs, channelWidth, gi, a.throughput mcs channelWidth gi)]))
        else
          Except.error (Ending.exit 1
            (st.rows ++ [(mcs, channelWidth, gi, a.throughput mcs channelWidth gi)]))
      else
        Except.error (Ending.exit 0 st.rows) := by
  unfold body
  by_cases hv : a.frequency = 5 ∨ a.frequency = 24 / 10 <;>
  by_cases hfirst : mcs = 0 ∧ channelWidth = 20 ∧ gi = 3200 <;>
  by_cases hlast : mcs = 11 ∧ channelWidth = 160 ∧ gi = 800 <;>
  by_cases hmin : a.throughput mcs channelWidth gi < a.minExpectedThroughput <;>
  by_cases hmax : a.maxExpectedThroughput > 0 ∧
      a.throughput mcs channelWidth gi > a.maxExpectedThroughput <;>
  simp only [hv, hfirst, hlast, hmin, hmax, bind, Except.bind, throw, throwThe,
    MonadExceptOf.throw, pure, Except.pure, if_true, if_false, and_true, and_false, true_and,
    false_and, not_true_eq_false, not_false_eq_true] <;>
  rfl

/-- With fuel for four rounds the loop over the guard interval runs the body for
3200, 1600 and 800 and ends at 400. -/
theorem giLoop_eq (a : Arguments F) (mcs channelWidth : Int) (fuel index : Nat) (previous : F)
    (st : Sweep F) (hfuel : 4 ≤ fuel) :
    giLoop a mcs channelWidth fuel 3200 index previous st =
      slotFold a mcs [(channelWidth, 3200), (channelWidth, 1600), (channelWidth, 800)]
        index previous st := by
  obtain ⟨f, rfl⟩ : ∃ f, fuel = f + 4 := ⟨fuel - 4, by omega⟩
  have h1 : Int.tdiv 3200 2 = 1600 := by decide
  have h2 : Int.tdiv 1600 2 = 800 := by decide
  have h3 : Int.tdiv 800 2 = 400 := by decide
  have c1 : (3200 : Int) ≥ 800 := by decide
  have c2 : (1600 : Int) ≥ 800 := by decide
  have c3 : (800 : Int) ≥ 800 := by decide
  have c4 : ¬ (400 : Int) ≥ 800 := by decide
  simp only [giLoop, slotFold, h1, h2, h3, c1, c2, c3, c4, if_true, if_false]

theorem slotFold_append (a : Arguments F) (mcs : Int) (l1 l2 : List (Int × Int)) (index : Nat)
    (previous : F) (st : Sweep F) :
    slotFold a mcs (l1 ++ l2) index previous st =
      (slotFold a mcs l1 index previous st).bind
        (fun r => slotFold a mcs l2 r.1 r.2.1 r.2.2) := by
  induction l1 generalizing index previous st with
  | nil => rfl
  | cons s rest ih =>
    simp only [List.cons_append, slotFold, bind]
    cases hb : body a mcs s.1 s.2 index previous st with
    | error e => rfl
    | ok r =>
      simp only [Except.bind]
      exact ih _ _ _


theorem Except_bind_eta {ε α β γ : Type} (x : Except ε (α × β × γ)) :
    Except.bind x (fun r => Except.pure (r.1, r.2.1, r.2.2)) = x := by
  cases x <;> rfl

/-- With fuel for five rounds the loop over the channel width runs the body over
the pairs of `slots`, in their order. -/
theorem widthLoop_eq (a : Arguments F) (mcs : Int) (fuel rounds index : Nat) (previous : F)
    (st : Sweep F) (hfuel : 4 ≤ fuel) (hrounds : 5 ≤ rounds) :
    widthLoop a mcs (if a.frequency = 24 / 10 then 40 else 160) fuel rounds 20 index previous st =
      slotFold a mcs (slots a) index previous st := by
  obtain ⟨r, rfl⟩ : ∃ r, rounds = r + 5 := ⟨rounds - 5, by omega⟩
  have w1 : PowerAdaptationDistance.wrapInt32 (20 * 2) = 40 := by decide
  have w2 : PowerAdaptationDistance.wrapInt32 (40 * 2) = 80 := by decide
  have w3 : PowerAdaptationDistance.wrapInt32 (80 * 2) = 160 := by decide
  have w4 : PowerAdaptationDistance.wrapInt32 (160 * 2) = 320 := by decide
  by_cases hf : a.frequency = 24 / 10
  · have c1 : (20 : Int) ≤ 40 := by decide
    have c2 : (40 : Int) ≤ 40 := by decide
    have c3 : ¬ (80 : Int) ≤ 40 := by decide
    have hs : slots a = [(20, 3200), (20, 1600), (20, 800)] ++
        [(40, 3200), (40, 1600), (40, 800)] := by
      simp [slots, channelWidths, guardIntervals, hf]
    rw [hs, slotFold_append]
    simp only [hf, if_true, widthLoop, w1, w2, c1, c2, c3, if_false,
      giLoop_eq a mcs _ fuel _ _ _ hfuel, bind, pure, Except_bind_eta]
  · have c1 : (20 : Int) ≤ 160 := by decide
    have c2 : (40 : Int) ≤ 160 := by decide
    have c3 : (80 : Int) ≤ 160 := by decide
    have c4 : (160 : Int) ≤ 160 := by decide
    have c5 : ¬ (320 : Int) ≤ 160 := by decide
    have hs : slots a = [(20, 3200), (20, 1600), (20, 800)] ++
        ([(40, 3200), (40, 1600), (40, 800)] ++
        ([(80, 3200), (80, 1600), (80, 800)] ++
        [(160, 3200), (160, 1600), (160, 800)])) := by
      simp [slots, channelWidths, guardIntervals, hf]
    rw [hs, slotFold_append]
    simp only [hf, if_false, widthLoop, w1, w2, w3, w4, c1, c2, c3, c4, c5, if_true,
      giLoop_eq a mcs _ fuel _ _ _ hfuel, slotFold_append, bind, pure, Except_bind_eta]


/-- With fuel for thirteen rounds the loop over the MCS runs over the values of
`mcsValues`, in their order. -/
theorem mcsLoop_eq (a : Arguments F) (fuel rounds : Nat) (st : Sweep F) (hfuel : 5 ≤ fuel)
    (hrounds : 13 ≤ rounds) :
    mcsLoop a (if a.mcs ≥ 0 ∧ a.mcs ≤ 11 then a.mcs else 11) fuel rounds
        (if a.mcs ≥ 0 ∧ a.mcs ≤ 11 then a.mcs else 0) st =
      mcsFold a (mcsValues a) st := by
  obtain ⟨r, rfl⟩ : ∃ r, rounds = r + 13 := ⟨rounds - 13, by omega⟩
  by_cases hm : a.mcs ≥ 0 ∧ a.mcs ≤ 11
  · have hw : PowerAdaptationDistance.wrapInt32 (a.mcs + 1) = a.mcs + 1 :=
      PowerAdaptationDistance.wrapInt32_eq_self _ (by omega) (by omega)
    have c1 : a.mcs ≤ a.mcs := le_refl _
    have c2 : ¬ a.mcs + 1 ≤ a.mcs := by omega
    simp only [hm, if_true, mcsValues, mcsLoop, mcsFold, c1, c2, if_false, hw, and_self,
      widthLoop_eq a _ fuel fuel _ _ _ (by omega) hfuel]
  · have w0 : PowerAdaptationDistance.wrapInt32 (0 + 1) = 1 := by decide
    have w1 : PowerAdaptationDistance.wrapInt32 (1 + 1) = 2 := by decide
    have w2 : PowerAdaptationDistance.wrapInt32 (2 + 1) = 3 := by decide
    have w3 : PowerAdaptationDistance.wrapInt32 (3 + 1) = 4 := by decide
    have w4 : PowerAdaptationDistance.wrapInt32 (4 + 1) = 5 := by decide
    have w5 : PowerAdaptationDistance.wrapInt32 (5 + 1) = 6 := by decide
    have w6 : PowerAdaptationDistance.wrapInt32 (6 + 1) = 7 := by decide
    have w7 : PowerAdaptationDistance.wrapInt32 (7 + 1) = 8 := by decide
    have w8 : PowerAdaptationDistance.wrapInt32 (8 + 1) = 9 := by decide
    have w9 : PowerAdaptationDistance.wrapInt32 (9 + 1) = 10 := by decide
    have w10 : PowerAdaptationDistance.wrapInt32 (10 + 1) = 11 := by decide
    have w11 : PowerAdaptationDistance.wrapInt32 (11 + 1) = 12 := by decide
    have c0 : (0 : Int) ≤ 11 := by decide
    have c1 : (1 : Int) ≤ 11 := by decide
    have c2 : (2 : Int) ≤ 11 := by decide
    have c3 : (3 : Int) ≤ 11 := by decide
    have c4 : (4 : Int) ≤ 11 := by decide
    have c5 : (5 : Int) ≤ 11 := by decide
    have c6 : (6 : Int) ≤ 11 := by decide
    have c7 : (7 : Int) ≤ 11 := by decide
    have c8 : (8 : Int) ≤ 11 := by decide
    have c9 : (9 : Int) ≤ 11 := by decide
    have c10 : (10 : Int) ≤ 11 := by decide
    have c11 : (11 : Int) ≤ 11 := by decide
    have c12 : ¬ (12 : Int) ≤ 11 := by decide
    simp only [hm, if_false, mcsValues, mcsLoop, mcsFold, w0, w1, w2, w3, w4, w5, w6, w7, w8, w9,
      w10, w11, c0, c1, c2, c3, c4, c5, c6, c7, c8, c9, c10, c11, c12, if_true,
      widthLoop_eq a _ fuel fuel _ _ _ (by omega) hfuel]

/-- With fuel 13 or more, `main` is the run over `mcsValues` and `slots`, ending
with status 0 when no check ends it before. -/
theorem main_eq (a : Arguments F) (fuel : Nat) (hfuel : 13 ≤ fuel) :
    main fuel a =
      match mcsFold a (mcsValues a) { prevThroughput := List.replicate 12 0, rows := [] } with
      | Except.ok st => Ending.exit 0 st.rows
      | Except.error e => e := by
  unfold main
  simp only [mcsLoop_eq a fuel fuel _ (by omega) hfuel]


/-- A pass through the body that does not end the program. -/
theorem body_ok (a : Arguments F) (mcs channelWidth gi : Int) (index : Nat) (previous : F)
    (st : Sweep F) (r : Nat × F × Sweep F)
    (h : body a mcs channelWidth gi index previous st = Except.ok r) :
    (a.frequency = 5 ∨ a.frequency = 24 / 10) ∧
    previous < a.throughput mcs channelWidth gi ∧
    (mcs = 0 ∧ channelWidth = 20 ∧ gi = 3200 →
      a.minExpectedThroughput ≤ a.throughput mcs channelWidth gi) ∧
    ∃ old, st.prevThroughput[index]? = some old ∧ old < a.throughput mcs channelWidth gi ∧
      r = ((index + 1) % 256, a.throughput mcs channelWidth gi,
        { prevThroughput := st.prevThroughput.set index (a.throughput mcs channelWidth gi)
          rows := st.rows ++ [(mcs, channelWidth, gi, a.throughput mcs channelWidth gi)] }) := by
  rw [body_eq] at h
  split_ifs at h with hv hmin hmax hprev
  · cases hg : st.prevThroughput[index]? with
    | none => simp [hg] at h
    | some old =>
      simp only [hg] at h
      split_ifs at h with hold
      refine ⟨hv, hprev, ?_, old, rfl, hold, (Except.ok.inj h).symm⟩
      intro hfirst
      exact not_lt.mp (fun hlt => hmin ⟨hfirst, hlt⟩)

/-- With a valid frequency and the index within the array, a pass through the
body that ends the program ends it with `exit (1)`. -/
theorem body_error (a : Arguments F) (mcs channelWidth gi : Int) (index : Nat) (previous : F)
    (st : Sweep F) (e : Ending F)
    (hvalid : a.frequency = 5 ∨ a.frequency = 24 / 10)
    (hindex : index < st.prevThroughput.length)
    (h : body a mcs channelWidth gi index previous st = Except.error e) :
    e = Ending.exit 1 (st.rows ++ [(mcs, channelWidth, gi, a.throughput mcs channelWidth gi)]) := by
  rw [body_eq] at h
  have hg : st.prevThroughput[index]? = some st.prevThroughput[index] :=
    List.getElem?_eq_getElem hindex
  simp only [hvalid, if_true, hg] at h
  split_ifs at h <;> exact (Except.error.inj h).symm


/-- A run of the body over the pairs of `slots`, started at the index where the
part `done` of the array ends, that comes to its end: the index has advanced by
the number of pairs, the throughputs increase from `previous` on, each exceeds
the element of the array it replaces, and a line has been printed for each. -/
theorem slotFold_ok (a : Arguments F) (mcs : Int) (l : List (Int × Int)) (done rest : List F)
    (previous : F) (st : Sweep F) (r : Nat × F × Sweep F)
    (hprev : st.prevThroughput = done ++ rest) (hlen : l.length ≤ rest.length)
    (hbound : done.length + l.length < 256)
    (h : slotFold a mcs l done.length previous st = Except.ok r) :
    r.1 = done.length + l.length ∧
    List.Chain (· < ·) previous (l.map (fun s => a.throughput mcs s.1 s.2)) ∧
    List.Forall₂ (· < ·) (rest.take l.length) (l.map (fun s => a.throughput mcs s.1 s.2)) ∧
    r.2.2.prevThroughput =
      done ++ l.map (fun s => a.throughput mcs s.1 s.2) ++ rest.drop l.length ∧
    r.2.2.rows = st.rows ++ l.map (fun s => (mcs, s.1, s.2, a.throughput mcs s.1 s.2)) ∧
    (mcs = 0 → (20, 3200) ∈ l → a.minExpectedThroughput ≤ a.throughput 0 20 3200) := by
  induction l generalizing done rest previous st with
  | nil =>
    simp only [slotFold, pure, Except.pure] at h
    cases h
    simp [hprev]
  | cons s l ih =>
    cases rest with
    | nil => simp at hlen
    | cons old rest =>
      simp only [slotFold, bind] at h
      cases hb : body a mcs s.1 s.2 done.length previous st with
      | error e => simp [hb, Except.bind] at h
      | ok r1 =>
        simp only [hb, Except.bind] at h
        obtain ⟨_, hlt, hmin, old2, hget, hold, hr1⟩ := body_ok a mcs s.1 s.2 _ _ _ _ hb
        have hold2 : old2 = old := by
          rw [hprev, List.getElem?_append_right (le_refl _), Nat.sub_self,
            List.getElem?_cons_zero] at hget
          exact (Option.some.inj hget).symm
        subst hold2
        have hindex : (done.length + 1) % 256 = (done ++ [a.throughput mcs s.1 s.2]).length := by
          simp only [List.length_cons] at hbound
          rw [Nat.mod_eq_of_lt (by omega)]
          simp
        rw [hr1] at h
        simp only [hindex] at h
        have hprev2 : (st.prevThroughput.set done.length (a.throughput mcs s.1 s.2)) =
            (done ++ [a.throughput mcs s.1 s.2]) ++ rest := by
          rw [hprev]
          simp
        obtain ⟨h1, h2, h3, h4, h5, h6⟩ := ih (done ++ [a.throughput mcs s.1 s.2]) rest
          (a.throughput mcs s.1 s.2)
          { prevThroughput := st.prevThroughput.set done.length (a.throughput mcs s.1 s.2)
            rows := st.rows ++ [(mcs, s.1, s.2, a.throughput mcs s.1 s.2)] }
          hprev2 (by simpa using hlen) (by simp at hbound ⊢; omega) h
        refine ⟨?_, ?_, ?_, ?_, ?_, ?_⟩
        · rw [h1]
          simp
          omega
        · exact List.Chain.cons hlt h2
        · simp only [List.length_cons, List.take_succ_cons, List.map_cons]
          exact List.Forall₂.cons hold h3
        · rw [h4]
          simp
        · rw [h5]
          simp
        · intro hm hmem
          rcases List.mem_cons.mp hmem with hs | hs
          · have hs1 : s.1 = 20 := by rw [← hs]
            have hs2 : s.2 = 3200 := by rw [← hs]
            have := hmin ⟨hm, hs1, hs2⟩
            rw [hm, hs1, hs2] at this
            exact this
          · exact h6 hm hs


/-- With a valid frequency and the index within the array, a run of the body over
a list of pairs that ends early ends with `exit (1)`. -/
theorem slotFold_error (a : Arguments F) (mcs : Int) (l : List (Int × Int)) (done rest : List F)
    (previous : F) (st : Sweep F) (e : Ending F)
    (hvalid : a.frequency = 5 ∨ a.frequency = 24 / 10)
    (hprev : st.prevThroughput = done ++ rest) (hlen : l.length ≤ rest.length)
    (hbound : done.length + l.length < 256)
    (h : slotFold a mcs l done.length previous st = Except.error e) :
    ∃ rows, e = Ending.exit 1 rows := by
  induction l generalizing done rest previous st with
  | nil => simp [slotFold, pure, Except.pure] at h
  | cons s l ih =>
    cases rest with
    | nil => simp at hlen
    | cons old rest =>
      simp only [slotFold, bind] at h
      cases hb : body a mcs s.1 s.2 done.length previous st with
      | error e1 =>
        simp only [hb, Except.bind] at h
        have hindex : done.length < st.prevThroughput.length := by
          rw [hprev]
          simp
        rw [← Except.error.inj h]
        exact ⟨_, body_error a mcs s.1 s.2 _ _ _ _ hvalid hindex hb⟩
      | ok r1 =>
        simp only [hb, Except.bind] at h
        obtain ⟨_, _, _, old2, _, _, hr1⟩ := body_ok a mcs s.1 s.2 _ _ _ _ hb
        have hindex : (done.length + 1) % 256 = (done ++ [a.throughput mcs s.1 s.2]).length := by
          simp only [List.length_cons] at hbound
          rw [Nat.mod_eq_of_lt (by omega)]
          simp
        rw [hr1] at h
        simp only [hindex] at h
        have hprev2 : (st.prevThroughput.set done.length (a.throughput mcs s.1 s.2)) =
            (done ++ [a.throughput mcs s.1 s.2]) ++ rest := by
          rw [hprev]
          simp
        exact ih (done ++ [a.throughput mcs s.1 s.2]) rest (a.throughput mcs s.1 s.2)
          { prevThroughput := st.prevThroughput.set done.length (a.throughput mcs s.1 s.2)
            rows := st.rows ++ [(mcs, s.1, s.2, a.throughput mcs s.1 s.2)] }
          hprev2 (by simpa using hlen) (by simp at hbound ⊢; omega) h

theorem slots_length (a : Arguments F) : (slots a).length ≤ 12 := by
  unfold slots channelWidths guardIntervals
  split <;> simp

theorem slots_ne_nil (a : Arguments F) : slots a ≠ [] := by
  unfold slots channelWidths guardIntervals
  split <;> simp

theorem first_slot_mem (a : Arguments F) : ((20 : Int), (3200 : Int)) ∈ slots a := by
  unfold slots channelWidths guardIntervals
  split <;> simp

/-- A run over a list of MCS values that comes to its end, started with an array
of 12 elements. -/
theorem mcsFold_ok (a : Arguments F) (l : List Int) (st after : Sweep F)
    (hlen : st.prevThroughput.length = 12)
    (h : mcsFold a l st = Except.ok after) :
    (∀ m ∈ l, List.Chain (· < ·) 0 (throughputs a m)) ∧
    (∀ m rest, l = m :: rest →
      List.Forall₂ (· < ·) (st.prevThroughput.take (slots a).length) (throughputs a m)) ∧
    List.Chain' (fun m n => List.Forall₂ (· < ·) (throughputs a m) (throughputs a n)) l ∧
    after.rows = st.rows ++ l.flatMap (rowsOf a) ∧
    ((0 : Int) ∈ l → a.minExpectedThroughput ≤ a.throughput 0 20 3200) := by
  induction l generalizing st with
  | nil =>
    simp only [mcsFold, pure, Except.pure] at h
    cases h
    simp
  | cons m l ih =>
    simp only [mcsFold, bind] at h
    cases hs : slotFold a m (slots a) 0 0 st with
    | error e => simp [hs, Except.bind] at h
    | ok r1 =>
      simp only [hs, Except.bind] at h
      have hslots := slots_length a
      obtain ⟨_, hchain, hforall, hprev1, hrows1, hmin⟩ :=
        slotFold_ok a m (slots a) [] st.prevThroughput 0 st r1 (by simp) (by omega)
          (by simp; omega) hs
      have hlen1 : r1.2.2.prevThroughput.length = 12 := by
        rw [hprev1]
        simp
        omega
      have htake : r1.2.2.prevThroughput.take (slots a).length = throughputs a m := by
        rw [hprev1]
        simp [throughputs]
      obtain ⟨i1, i2, i3, i4, i5⟩ := ih r1.2.2 hlen1 h
      refine ⟨?_, ?_, ?_, ?_, ?_⟩
      · intro n hn
        rcases List.mem_cons.mp hn with hn | hn
        · rw [hn]
          exact hchain
        · exact i1 n hn
      · intro n rest hnr
        obtain ⟨hn, _⟩ := List.cons.inj hnr
        rw [← hn]
        exact hforall
      · cases l with
        | nil => exact List.chain'_singleton m
        | cons n rest =>
          refine List.chain'_cons.mpr ⟨?_, i3⟩
          have := i2 n rest rfl
          rw [htake] at this
          exact this
      · rw [i4, hrows1]
        simp [rowsOf]
      · intro h0
        rcases List.mem_cons.mp h0 with h0 | h0
        · exact hmin h0.symm (first_slot_mem a)
        · exact i5 h0

theorem mcsFold_error (a : Arguments F) (l : List Int) (st : Sweep F) (e : Ending F)
    (hvalid : a.frequency = 5 ∨ a.frequency = 24 / 10)
    (hlen : st.prevThroughput.length = 12)
    (h : mcsFold a l st = Except.error e) :
    ∃ rows, e = Ending.exit 1 rows := by
  induction l generalizing st with
  | nil => simp [mcsFold, pure, Except.pure] at h
  | cons m l ih =>
    simp only [mcsFold, bind] at h
    have hslots := slots_length a
    cases hs : slotFold a m (slots a) 0 0 st with
    | error e1 =>
      simp only [hs, Except.bind] at h
      rw [← Except.error.inj h]
      exact slotFold_error a m (slots a) [] st.prevThroughput 0 st e1 hvalid (by simp)
        (by omega) (by simp; omega) hs
    | ok r1 =>
      simp only [hs, Except.bind] at h
      obtain ⟨_, _, _, hprev1, _, _⟩ :=
        slotFold_ok a m (slots a) [] st.prevThroughput 0 st r1 (by simp) (by omega)
          (by simp; omega) hs
      have hlen1 : r1.2.2.prevThroughput.length = 12 := by
        rw [hprev1]
        simp
        omega
      exact ih r1.2.2 hlen1 h


theorem forall₂_throughputs (a : Arguments F) (m n : Int)
    (h : List.Forall₂ (· < ·) (throughputs a m) (throughputs a n)) :
    ∀ s ∈ slots a, a.throughput m s.1 s.2 < a.throughput n s.1 s.2 := by
  unfold throughputs at h
  rw [List.forall₂_map_left_iff, List.forall₂_map_right_iff, List.forall₂_same] at h
  exact h

theorem chain_throughputs (l : List F) (h : List.Chain (· < ·) 0 l) :
    List.Sorted (· < ·) l ∧ ∀ t ∈ l, 0 < t := by
  have hp := List.chain_iff_pairwise.mp h
  rw [List.pairwise_cons] at hp
  exact ⟨hp.2, hp.1⟩

theorem consecutive_mcs (a : Arguments F)
    (h : List.Chain' (fun m n => List.Forall₂ (· < ·) (throughputs a m) (throughputs a n))
      (mcsValues a)) :
    ∀ m, m ∈ mcsValues a → m + 1 ∈ mcsValues a →
      ∀ s ∈ slots a, a.throughput m s.1 s.2 < a.throughput (m + 1) s.1 s.2 := by
  intro m hm hm1
  apply forall₂_throughputs
  unfold mcsValues at h hm hm1
  by_cases hmcs : a.mcs ≥ 0 ∧ a.mcs ≤ 11
  · simp only [hmcs, and_self, if_true, List.mem_singleton] at hm hm1
    omega
  · simp only [hmcs, if_false, List.chain'_cons, List.chain'_singleton, and_true] at h
    simp only [hmcs, if_false, List.mem_cons, List.mem_singleton, List.not_mem_nil,
      or_false] at hm hm1
    obtain ⟨h0, h1, h2, h3, h4, h5, h6, h7, h8, h9, h10⟩ := h
    rcases hm with rfl | rfl | rfl | rfl | rfl | rfl | rfl | rfl | rfl | rfl | rfl | rfl
    · exact h0
    · exact h1
    · exact h2
    · exact h3
    · exact h4
    · exact h5
    · exact h6
    · exact h7
    · exact h8
    · exact h9
    · exact h10
    · omega


/-- The run of `main` on the sample command line, whatever the minimum. -/
theorem main_sample (minExpectedThroughput : ℚ) :
    main 13 (sampleArguments minExpectedThroughput) =
      Ending.exit 0
        [(5, 20, 3200, 114), (5, 20, 1600, 117), (5, 20, 800, 237 / 2),
         (5, 40, 3200, 234), (5, 40, 1600, 237), (5, 40, 800, 477 / 2)] := by
  rw [main_eq _ _ (le_refl _)]
  simp [mcsValues, sampleArguments, mcsFold, slots, channelWidths, guardIntervals, slotFold,
    body_eq, sampleThroughput, bind, Except.bind, pure, Except.pure]
  norm_num

/-- C18, at `--frequency=2.4 --mcs=5 --minExpectedThroughput=1000` with the sample
throughputs: the sweep visits MCS 5 alone, the comparison with
`minExpectedThroughput` is made for MCS 0 only, and the program ends with exit
status 0 although every one of the six throughputs it measured, the lowest being
114, is below 1000. -/
theorem main_ignores_minimum :
    main 13 (sampleArguments 1000) =
      Ending.exit 0
        [(5, 20, 3200, 114), (5, 20, 1600, 117), (5, 20, 800, 237 / 2),
         (5, 40, 3200, 234), (5, 40, 1600, 237), (5, 40, 800, 477 / 2)] ∧
    (sampleArguments 1000).minExpectedThroughput = 1000 ∧
    (114 : ℚ) < 1000 :=
  ⟨main_sample 1000, rfl, by norm_num⟩

/-- C19: with a valid frequency and fuel for the loops, the program ends with exit
status 0 or 1. When it ends with status 0, the lines printed are those of the
MCS values in turn, each over the pairs (channel width, guard interval) in the
order of `slots`; within each MCS the throughputs are strictly increasing in this
order and positive; and for two consecutive MCS values the throughput of every
pair is greater for the second. When one of these conditions fails, the program
ends with exit status 1. -/
theorem main_exit_zero_monotone (a : Arguments F) (fuel : Nat) (hfuel : 13 ≤ fuel)
    (hvalid : a.frequency = 5 ∨ a.frequency = 24 / 10) :
    ((∃ rows, main fuel a = Ending.exit 0 rows) ∨
      (∃ rows, main fuel a = Ending.exit 1 rows)) ∧
    (∀ rows, main fuel a = Ending.exit 0 rows →
      rows = (mcsValues a).flatMap (rowsOf a) ∧
      (∀ m ∈ mcsValues a,
        List.Sorted (· < ·) (throughputs a m) ∧ ∀ t ∈ throughputs a m, 0 < t) ∧
      (∀ m, m ∈ mcsValues a → m + 1 ∈ mcsValues a →
        ∀ s ∈ slots a, a.throughput m s.1 s.2 < a.throughput (m + 1) s.1 s.2)) ∧
    (¬ ((∀ m ∈ mcsValues a,
          List.Sorted (· < ·) (throughputs a m) ∧ ∀ t ∈ throughputs a m, 0 < t) ∧
        (∀ m, m ∈ mcsValues a → m + 1 ∈ mcsValues a →
          ∀ s ∈ slots a, a.throughput m s.1 s.2 < a.throughput (m + 1) s.1 s.2)) →
      ∃ rows, main fuel a = Ending.exit 1 rows) := by
  have hzero : ∀ rows, main fuel a = Ending.exit 0 rows →
      rows = (mcsValues a).flatMap (rowsOf a) ∧
      (∀ m ∈ mcsValues a,
        List.Sorted (· < ·) (throughputs a m) ∧ ∀ t ∈ throughputs a m, 0 < t) ∧
      (∀ m, m ∈ mcsValues a → m + 1 ∈ mcsValues a →
        ∀ s ∈ slots a, a.throughput m s.1 s.2 < a.throughput (m + 1) s.1 s.2) := by
    intro rows hmain
    rw [main_eq a fuel hfuel] at hmain
    cases hfold : mcsFold a (mcsValues a) { prevThroughput := List.replicate 12 0, rows := [] } with
    | error e =>
      obtain ⟨rows1, he⟩ := mcsFold_error a _ _ e hvalid (by simp) hfold
      rw [hfold, he] at hmain
      simp at hmain
    | ok st =>
      rw [hfold] at hmain
      simp only [Ending.exit.injEq, true_and] at hmain
      obtain ⟨hchain, _, hcross, hrows, _⟩ := mcsFold_ok a _ _ st (by simp) hfold
      refine ⟨?_, fun m hm => chain_throughputs _ (hchain m hm), consecutive_mcs a hcross⟩
      rw [← hmain, hrows]
      simp
  have hstatus : (∃ rows, main fuel a = Ending.exit 0 rows) ∨
      (∃ rows, main fuel a = Ending.exit 1 rows) := by
    rw [main_eq a fuel hfuel]
    cases hfold : mcsFold a (mcsValues a) { prevThroughput := List.replicate 12 0, rows := [] } with
    | error e =>
      obtain ⟨rows1, he⟩ := mcsFold_error a _ _ e hvalid (by simp) hfold
      exact Or.inr ⟨rows1, he⟩
    | ok st => exact Or.inl ⟨st.rows, rfl⟩
  refine ⟨hstatus, hzero, ?_⟩
  intro hnot
  rcases hstatus with ⟨rows, h0⟩ | h1
  · exact absurd (hzero rows h0).2 hnot
  · exact h1

theorem main_exit_zero_monotone_witness :
    (∃ rows, main 13 (sampleArguments 0) = Ending.exit 0 rows) ∧
    List.Sorted (· < ·) (throughputs (sampleArguments 0) 5) ∧
    ∀ t ∈ throughputs (sampleArguments 0) 5, 0 < t := by
  have h := (main_exit_zero_monotone (sampleArguments 0) 13 (by decide) (Or.inr rfl)).2.1 _
    (main_sample 0)
  have h5 := h.2.1 5 (by simp [mcsValues, sampleArguments])
  exact ⟨⟨_, main_sample 0⟩, h5.1, h5.2⟩

/-! ## The index of `prevThroughput` -/

/-- With a frequency that is neither 5 nor 2.4 the program returns 0 at the first
pass through the body, before any run. -/
theorem main_wrong_frequency (a : Arguments F) (fuel : Nat) (hfuel : 13 ≤ fuel)
    (hwrong : ¬ (a.frequency = 5 ∨ a.frequency = 24 / 10)) :
    main fuel a = Ending.exit 0 [] := by
  rw [main_eq a fuel hfuel]
  obtain ⟨m, rest, hm⟩ : ∃ m rest, mcsValues a = m :: rest := by
    unfold mcsValues
    split
    · exact ⟨_, _, rfl⟩
    · exact ⟨_, _, rfl⟩
  obtain ⟨s, rest2, hs⟩ : ∃ s rest2, slots a = s :: rest2 :=
    List.exists_cons_of_ne_nil (slots_ne_nil a)
  rw [hm]
  simp only [mcsFold, hs, slotFold, body_eq, hwrong, if_false, bind, Except.bind]

/-- With fuel for the loops, the program ends with exit status 0 or 1, whatever
the command line and the throughputs. -/
theorem main_ends (a : Arguments F) (fuel : Nat) (hfuel : 13 ≤ fuel) :
    ∃ status rows, main fuel a = Ending.exit status rows ∧ (status = 0 ∨ status = 1) := by
  by_cases hvalid : a.frequency = 5 ∨ a.frequency = 24 / 10
  · rw [main_eq a fuel hfuel]
    cases hfold : mcsFold a (mcsValues a) { prevThroughput := List.replicate 12 0, rows := [] } with
    | error e =>
      obtain ⟨rows1, he⟩ := mcsFold_error a _ _ e hvalid (by simp) hfold
      exact ⟨1, rows1, he, Or.inr rfl⟩
    | ok st => exact ⟨0, st.rows, rfl, Or.inl rfl⟩
  · exact ⟨0, [], main_wrong_frequency a fuel hfuel hvalid, Or.inl rfl⟩

/-- C23: with fuel for the loops (13 rounds are enough), for every frequency, every
`mcs` and all throughputs, the program ends with an exit status: no read or write
of `prevThroughput` has an index outside the 12 elements, and no loop runs on.
The run is the one over `mcsValues` and, for each MCS from index 0 on, over the
pairs of `slots`: three guard intervals for each of two widths at 2.4 GHz and of
four widths otherwise, 12 pairs at most. After any number of these pairs the
index equals the number of pairs passed, so that it is below 12 at each access. -/
theorem main_index_in_bounds (a : Arguments F) (fuel : Nat) (hfuel : 13 ≤ fuel) :
    (∃ status rows, main fuel a = Ending.exit status rows) ∧
    main fuel a ≠ Ending.outOfBounds ∧
    main fuel a ≠ Ending.outOfFuel ∧
    (main fuel a =
      match mcsFold a (mcsValues a) { prevThroughput := List.replicate 12 0, rows := [] } with
      | Except.ok st => Ending.exit 0 st.rows
      | Except.error e => e) ∧
    (a.frequency = 24 / 10 →
      slots a = [(20, 3200), (20, 1600), (20, 800), (40, 3200), (40, 1600), (40, 800)]) ∧
    (a.frequency ≠ 24 / 10 →
      slots a = [(20, 3200), (20, 1600), (20, 800), (40, 3200), (40, 1600), (40, 800),
        (80, 3200), (80, 1600), (80, 800), (160, 3200), (160, 1600), (160, 800)]) ∧
    (slots a).length ≤ 12 ∧
    (∀ (mcs : Int) (passed left : List (Int × Int)) (st : Sweep F) (r : Nat × F × Sweep F),
      slots a = passed ++ left → st.prevThroughput.length = 12 →
      slotFold a mcs passed 0 0 st = Except.ok r →
      r.1 = passed.length ∧ r.1 + left.length ≤ 12 ∧ r.2.2.prevThroughput.length = 12 ∧
      (left ≠ [] → r.1 < 12)) := by
  obtain ⟨status, rows, hmain, _⟩ := main_ends a fuel hfuel
  refine ⟨⟨status, rows, hmain⟩, ?_, ?_, main_eq a fuel hfuel, ?_, ?_, slots_length a, ?_⟩
  · rw [hmain]
    exact fun h => Ending.noConfusion h
  · rw [hmain]
    exact fun h => Ending.noConfusion h
  · intro hf
    simp [slots, channelWidths, guardIntervals, hf]
  · intro hf
    simp [slots, channelWidths, guardIntervals, hf]
  · intro mcs passed left st r hsplit hlen hfold
    have htotal : passed.length + left.length ≤ 12 := by
      have h := slots_length a
      rw [hsplit, List.length_append] at h
      exact h
    obtain ⟨hindex, _, _, hprev, _, _⟩ :=
      slotFold_ok a mcs passed [] st.prevThroughput 0 st r (by simp) (by omega)
        (by simp; omega) hfold
    have hindex2 : r.1 = passed.length := by simpa using hindex
    refine ⟨hindex2, by omega, ?_, ?_⟩
    · rw [hprev]
      simp
      omega
    · intro hleft
      have hpos : 0 < left.length := List.length_pos.mpr hleft
      omega

theorem main_index_in_bounds_witness :
    main 13 (sampleArguments 0) ≠ Ending.outOfBounds ∧
    main 13 (sampleArguments 0) ≠ Ending.outOfFuel ∧
    (slots (sampleArguments 0)).length ≤ 12 := by
  obtain ⟨_, hbounds, hfuel, _, _, _, hlen, _⟩ :=
    main_index_in_bounds (sampleArguments 0) 13 (le_refl 13)
  exact ⟨hbounds, hfuel, hlen⟩

end BodyLemmas

end HeWifiNetwork
